import Mathlib

/-!
# xgen: the schema reference collector (`collector.go`)

A shallow embedding of `CollectReferencedFiles` and `getSchemaLocation`, followed by
theorems about the traversal: which paths end up in the visited map, when the traversal
stops, and which errors reach the caller.

Modelling decisions.

* The Go map `allFiles map[string]bool` is a function `String → Option Bool`
  (`none`: no such key). Reading `allFiles[k]` yields `false` for a missing key.
* The operating system is an environment `Env`: `Stat` and `Open` are functions of the
  path, so the file system does not change while the traversal runs. `Open` yields the
  tokens that `decoder.Token()` hands out before it first returns a nil token (end of
  input and a tokenization failure both end the loop of the source).
* `isValidURL` lives in another file of the package; it is a field of `Env`.
* `filepath.Dir` and `filepath.Join` follow the Unix behaviour of Go's `path/filepath`.
* The recursion of the source need not terminate on an arbitrary `Env`, so the embedding
  carries a fuel argument that bounds the recursion depth; `none` means out of fuel.
* Every call carries a log of the steps taken (map writes, `os.Stat`, `os.Open`,
  recursive calls), so that statements about file-system access can be made.
-/

namespace Xgen

/-! ## Data model -/

/-- Go's `error` values returned by the operating system. -/
abbrev Error := String

/-- The type `xml.Name`. -/
structure Name where
  Space : String
  Local : String
  deriving DecidableEq, Repr

/-- The type `xml.Attr`. -/
structure Attr where
  Name : Name
  Value : String
  deriving DecidableEq, Repr

/-- The type `xml.StartElement`. -/
structure StartElement where
  Name : Name
  Attr : List Attr
  deriving DecidableEq, Repr

/-- The type `xml.Token`: a start tag, or one of the other token kinds. -/
inductive Token where
  | StartElement (element : StartElement)
  | EndElement (name : Name)
  | CharData (data : String)
  | Comment (data : String)
  | ProcInst (target : String) (inst : String)
  | Directive (data : String)
  deriving DecidableEq, Repr

/-- The part of `os.FileInfo` that the collector looks at. -/
structure FileInfo where
  IsDir : Bool
  deriving DecidableEq, Repr

/-- The world outside `collector.go`: the file system and the URL classifier. -/
structure Env where
  /-- The call `os.Stat`. -/
  Stat : String → Except Error FileInfo
  /-- The call `os.Open` followed by the decoder: the tokens before the first nil token. -/
  Open : String → Except Error (List Token)
  /-- The package function `isValidURL`, defined outside `collector.go`. -/
  isValidURL : String → Bool

/-- The Go type `map[string]bool`. -/
abbrev FileMap := String → Option Bool

/-- The empty map `map[string]bool{}`. -/
def FileMap.empty : FileMap := fun _ => none

/-- The Go expression `m[k]`: a missing key reads as `false`. -/
def FileMap.get (m : FileMap) (k : String) : Bool := (m k).getD false

/-- The Go statement `m[k] = b`. -/
def FileMap.set (m : FileMap) (k : String) (b : Bool) : FileMap :=
  fun q => if q = k then some b else m q

/-- The path `k` is a key of the map. -/
def FileMap.HasKey (m : FileMap) (k : String) : Prop := m k ≠ none

/-- One observable step of the traversal. -/
inductive Event where
  /-- The write `allFiles[filePath] = true` (line 28). -/
  | mark (path : String)
  /-- A call of `os.Stat` (lines 31, 61, 72). -/
  | stat (path : String)
  /-- A call of `os.Open` (line 39). -/
  | osOpen (path : String)
  /-- A recursive call of `CollectReferencedFiles` (lines 63, 74). -/
  | call (path : String)
  deriving DecidableEq, Repr

/-- The mutable state of a traversal: the visited map and the log of steps taken. -/
structure State where
  allFiles : FileMap
  log : List Event

/-- Appends one event to the log. -/
def State.logged (s : State) (e : Event) : State :=
  { s with log := s.log ++ [e] }

/-- The statement `allFiles[filePath] = true`, logged. -/
def State.mark (s : State) (path : String) : State :=
  { allFiles := s.allFiles.set path true, log := s.log ++ [Event.mark path] }

/-- The outcome of a call: `none` is out of fuel, else the returned `error` and the state. -/
abbrev Outcome := Option (Option Error × State)

/-! ## Go library functions -/

/-- The predicate `unicode.IsSpace`. -/
def isSpace (c : Char) : Bool :=
  let n := c.toNat
  (9 ≤ n && n ≤ 13) || n = 32 || n = 0x85 || n = 0xA0 || n = 0x1680 ||
  (0x2000 ≤ n && n ≤ 0x200a) || n = 0x2028 || n = 0x2029 || n = 0x202f ||
  n = 0x205f || n = 0x3000

/-- The function `strings.TrimSpace`. -/
def TrimSpace (s : String) : String :=
  String.mk ((s.data.dropWhile isSpace).reverse.dropWhile isSpace).reverse

/-- Splits a character sequence at every occurrence of the separator. -/
def splitSep (sep : Char) : List Char → List (List Char)
  | [] => [[]]
  | c :: cs =>
    match splitSep sep cs with
    | [] => [[]]
    | x :: xs => if c = sep then [] :: x :: xs else (c :: x) :: xs

/-- One element of a path in `filepath.Clean`; `out` is the stack of kept elements,
last one first. Empty and `.` elements are dropped; `..` removes the element before it,
is kept at the start of a relative path, and is dropped at the root. -/
def cleanStep (rooted : Bool) (out : List (List Char)) (comp : List Char) :
    List (List Char) :=
  if comp = [] ∨ comp = ['.'] then out
  else if comp = ['.', '.'] then
    match out with
    | [] => if rooted then [] else [comp]
    | top :: rest => if top = ['.', '.'] then comp :: out else rest
  else comp :: out

/-- The function `filepath.Clean` on characters (Unix: separator `/`, no volume). -/
def cleanChars (path : List Char) : List Char :=
  match path with
  | [] => ['.']
  | c :: _ =>
    let rooted : Bool := c = '/'
    let out := ((splitSep '/' path).foldl (cleanStep rooted) []).reverse
    let body := List.intercalate ['/'] out
    if rooted then '/' :: body
    else if body = [] then ['.'] else body

/-- The function `filepath.Clean`. -/
def Clean (path : String) : String := String.mk (cleanChars path.data)

/-- The prefix of a path up to and including its last separator. -/
def uptoLastSep (path : List Char) : List Char :=
  (path.reverse.dropWhile (fun c => c ≠ '/')).reverse

/-- The function `filepath.Dir`. -/
def Dir (path : String) : String := String.mk (cleanChars (uptoLastSep path.data))

/-- The function `filepath.Join`: the elements from the first non-empty one on are
joined with the separator and cleaned; the empty string if all are empty. -/
def Join (elem : List String) : String :=
  match elem.dropWhile (fun e => e = "") with
  | [] => ""
  | es => String.mk (cleanChars (List.intercalate ['/'] (es.map String.data)))

/-! ## The source file `collector.go` -/

/-- The loop over the attributes in `getSchemaLocation`. -/
def getSchemaLocation.loop : List Attr → String
  | [] => ""
  | attr :: rest =>
    if attr.Name.Local = "schemaLocation" then TrimSpace attr.Value
    else getSchemaLocation.loop rest

/-- The function `getSchemaLocation` extracts the schemaLocation attribute from an
XML element. -/
def getSchemaLocation (element : StartElement) : String :=
  getSchemaLocation.loop element.Attr

/-- The token loop of `CollectReferencedFiles` (lines 48 to 84) over the tokens that
remain in the file; `recurse` is the recursive call of lines 63 and 74. -/
def CollectReferencedFiles.loop (env : Env) (recurse : String → State → Outcome)
    (fileDir : String) : List Token → State → Outcome
  | [], s => some (none, s)
  | token :: rest, s =>
    match token with
    | Token.StartElement element =>
      if element.Name.Local = "import" then
        let schemaLocation := getSchemaLocation element
        if schemaLocation ≠ "" ∧ env.isValidURL schemaLocation = false then
          let refFile := Join [fileDir, schemaLocation]
          match env.Stat refFile with
          | Except.ok _ =>
            match recurse refFile ((s.logged (Event.stat refFile)).logged (Event.call refFile)) with
            | none => none
            | some (some err, s1) => some (some err, s1)
            | some (none, s1) => CollectReferencedFiles.loop env recurse fileDir rest s1
          | Except.error _ =>
            CollectReferencedFiles.loop env recurse fileDir rest (s.logged (Event.stat refFile))
        else CollectReferencedFiles.loop env recurse fileDir rest s
      else if element.Name.Local = "include" then
        let schemaLocation := getSchemaLocation element
        if schemaLocation ≠ "" ∧ env.isValidURL schemaLocation = false then
          let refFile := Join [fileDir, schemaLocation]
          match env.Stat refFile with
          | Except.ok _ =>
            match recurse refFile ((s.logged (Event.stat refFile)).logged (Event.call refFile)) with
            | none => none
            | some (some err, s1) => some (some err, s1)
            | some (none, s1) => CollectReferencedFiles.loop env recurse fileDir rest s1
          | Except.error _ =>
            CollectReferencedFiles.loop env recurse fileDir rest (s.logged (Event.stat refFile))
        else CollectReferencedFiles.loop env recurse fileDir rest s
      else CollectReferencedFiles.loop env recurse fileDir rest s
    | _ => CollectReferencedFiles.loop env recurse fileDir rest s

/-- The function `CollectReferencedFiles` recursively collects all files referenced
by import and include statements. The first argument bounds the depth of the
recursion. -/
def CollectReferencedFiles {Options : Type} (env : Env) :
    Nat → String → String → State → Options → Outcome
  | 0, _, _, _, _ => none
  | fuel + 1, filePath, inputDir, s, options =>
    if s.allFiles.get filePath = true then some (none, s)
    else
      let s1 := s.mark filePath
      let fileDir := Dir filePath
      let s2 := s1.logged (Event.stat filePath)
      match env.Stat filePath with
      | Except.error err => some (some err, s2)
      | Except.ok fi =>
        if fi.IsDir = true then some (none, s2)
        else
          let s3 := s2.logged (Event.osOpen filePath)
          match env.Open filePath with
          | Except.error err => some (some err, s3)
          | Except.ok tokens =>
            CollectReferencedFiles.loop env
              (fun refFile t => CollectReferencedFiles env fuel refFile inputDir t options)
              fileDir tokens s3

/-! ## Notions used in the statements -/

/-- The start tag is an `import` or an `include` (local name, any namespace). -/
def IsDirective (element : StartElement) : Prop :=
  element.Name.Local = "import" ∨ element.Name.Local = "include"

instance (element : StartElement) : Decidable (IsDirective element) := by
  unfold IsDirective; infer_instance

/-- The local path a token refers to: the token is an `import` or `include` start tag
whose trimmed schema location is non-empty and not a URL; the location is joined to the
directory of the file that holds the token. -/
def localRef (env : Env) (fileDir : String) : Token → Option String
  | Token.StartElement element =>
    if IsDirective element ∧ getSchemaLocation element ≠ "" ∧
        env.isValidURL (getSchemaLocation element) = false
    then some (Join [fileDir, getSchemaLocation element]) else none
  | _ => none

/-- The path exists: `os.Stat` returns no error. -/
def Exists (env : Env) (path : String) : Prop := ∃ fi, env.Stat path = Except.ok fi

/-- The reference graph: a regular file `F` has an edge to `filepath.Join(Dir(F), loc)`
for every `import` or `include` start tag in its token stream whose trimmed schema
location `loc` is non-empty, is not a URL, and whose joined path exists. -/
def Edge (env : Env) (F G : String) : Prop :=
  ∃ fi tokens element,
    env.Stat F = Except.ok fi ∧ fi.IsDir = false ∧ env.Open F = Except.ok tokens ∧
    Token.StartElement element ∈ tokens ∧ IsDirective element ∧
    getSchemaLocation element ≠ "" ∧ env.isValidURL (getSchemaLocation element) = false ∧
    G = Join [Dir F, getSchemaLocation element] ∧ Exists env G

/-- The paths reachable from a path in the reference graph. -/
def Reach (env : Env) (a b : String) : Prop := Relation.ReflTransGen (Edge env) a b

/-- The paths marked by the events of a log, in order. -/
def marks : List Event → List String
  | [] => []
  | Event.mark p :: rest => p :: marks rest
  | _ :: rest => marks rest

/-- The state grows: visited entries stay visited, every entry either keeps its value
or becomes `true`, and the log is extended by events that mark each path at most once,
only paths that were not visited before and are visited afterwards. -/
def Grows (s t : State) : Prop :=
  (∀ q, s.allFiles.get q = true → t.allFiles.get q = true) ∧
  (∀ q, t.allFiles q = s.allFiles q ∨ t.allFiles q = some true) ∧
  ∃ new, t.log = s.log ++ new ∧ (marks new).Nodup ∧
    ∀ q, q ∈ marks new → s.allFiles.get q = false ∧ t.allFiles.get q = true

/-- Only finitely many reference targets exist: every existing path of the form
`filepath.Join(dir, loc)` is in the list `L`. This holds in particular when only
finitely many paths exist at all. -/
def FiniteTargets (env : Env) (L : List String) : Prop :=
  ∀ fileDir loc, Exists env (Join [fileDir, loc]) → Join [fileDir, loc] ∈ L

/-- The number of paths of `L` that the map does not hold as visited. -/
def unvisited (L : List String) (m : FileMap) : Nat :=
  (L.toFinset.filter (fun q => m.get q = false)).card

/-- A successful call on `p` from state `s` to state `t` has explored `p`: the path is
visited, every newly visited path is reachable from `p`, and every edge that leaves a
newly visited path ends in a visited path. -/
def Explored (env : Env) (p : String) (s t : State) : Prop :=
  t.allFiles.get p = true ∧
  (∀ q, t.allFiles.get q = true → s.allFiles.get q = true ∨ Reach env p q) ∧
  (∀ x, t.allFiles.get x = true → s.allFiles.get x = false →
    ∀ y, Edge env x y → t.allFiles.get y = true)

/-! ## Concrete file systems -/

/-- The characters that follow the first colon, if there is one. -/
def afterColon : List Char → Option (List Char)
  | [] => none
  | c :: rest => if c = ':' then some rest else afterColon rest

/-- Modelled from the spec: the Location Classifier `isValidURL`, whose source is not in
`collector.go`. A location is remote when it has a scheme and a host component, that is,
when it reads `scheme://host` followed by anything. -/
def isRemote (location : String) : Bool :=
  match location.data with
  | [] => false
  | c :: rest =>
    if c = ':' then false
    else
      match afterColon rest with
      | some (a :: b :: h :: _) => a = '/' && b = '/' && h ≠ '/'
      | _ => false

/-- An entry of a concrete file system. -/
inductive Node where
  /-- A directory. -/
  | dir
  /-- A regular file, given by the tokens the decoder reads from it. -/
  | file (tokens : List Token)
  /-- A regular file that `os.Open` refuses to open. -/
  | locked

/-- A file system given by a table from path strings to entries; a path exists when it
is listed. -/
def disk (nodes : List (String × Node)) : Env where
  Stat := fun p =>
    match nodes.lookup p with
    | some Node.dir => Except.ok { IsDir := true }
    | some _ => Except.ok { IsDir := false }
    | none => Except.error ("stat " ++ p ++ ": no such file or directory")
  Open := fun p =>
    match nodes.lookup p with
    | some (Node.file tokens) => Except.ok tokens
    | some Node.dir => Except.ok []
    | some Node.locked => Except.error ("open " ++ p ++ ": permission denied")
    | none => Except.error ("open " ++ p ++ ": no such file or directory")
  isValidURL := isRemote

/-- The start tag `<xs:tag schemaLocation="loc">`. -/
def startTag (tag loc : String) : StartElement :=
  { Name := { Space := "http://www.w3.org/2001/XMLSchema", Local := tag },
    Attr := [{ Name := { Space := "", Local := "schemaLocation" }, Value := loc }] }

/-- The token of the start tag `<xs:tag schemaLocation="loc">`. -/
def directive (tag loc : String) : Token := Token.StartElement (startTag tag loc)

/-- The state a caller starts from: an empty map and an empty log. -/
def State.initial : State := { allFiles := FileMap.empty, log := [] }

/-- A file system without any file. -/
def emptyDisk : Env := disk []

/-- The file `schemas/A.xsd` includes `B.xsd`, which imports `../common/C.xsd`. -/
def chainDisk : Env :=
  disk [("schemas/A.xsd", Node.file [directive "include" "B.xsd"]),
        ("schemas/B.xsd", Node.file [directive "import" "../common/C.xsd"]),
        ("common/C.xsd", Node.file [])]

/-- The files `a.xsd` and `b.xsd` reference each other. -/
def cycleDisk : Env :=
  disk [("a.xsd", Node.file [directive "import" "b.xsd"]),
        ("b.xsd", Node.file [directive "include" "a.xsd"])]

/-- The file `a.xsd` includes itself; it is listed under the two path strings `a.xsd`
and `./a.xsd`, which name the same file. -/
def selfDisk : Env :=
  disk [("a.xsd", Node.file [directive "include" "a.xsd"]),
        ("./a.xsd", Node.file [directive "include" "a.xsd"])]

/-- The file `a.xsd` imports `sub`, which is a directory. -/
def dirDisk : Env :=
  disk [("a.xsd", Node.file [directive "import" "sub"]), ("sub", Node.dir)]

/-- The file `a.xsd` imports `missing.xsd`, which does not exist, and a remote schema. -/
def danglingDisk : Env :=
  disk [("a.xsd", Node.file [directive "import" "missing.xsd",
                             directive "include" "http://example.com/s.xsd"])]

/-- The file `a.xsd` includes `b.xsd`, which cannot be opened, and then `c.xsd`. -/
def lockedDisk : Env :=
  disk [("a.xsd", Node.file [directive "include" "b.xsd", directive "include" "c.xsd"]),
        ("b.xsd", Node.locked),
        ("c.xsd", Node.file [])]

/-! ## Notions for the decoder, the attributes and the tag names -/

/-- One result of `decoder.Token()` (line 49): a token, or a nil token together with
the error that ended the stream (`io.EOF` at the end of the input, a syntax error for
malformed or unterminated markup). -/
inductive Read where
  | token (t : Token)
  | fail (err : Error)

/-- The tokens the loop of the source gets to see (lines 48 to 52): the error of
`decoder.Token()` is discarded, and the first nil token ends the loop. -/
def tokensRead : List Read → List Token
  | [] => []
  | Read.token t :: rest => t :: tokensRead rest
  | Read.fail _ :: _ => []

/-- The schema location in the words of the spec: the trimmed value of the first
attribute, in attribute order, whose local name is `schemaLocation`; the empty string
when there is none. -/
def extractLocation (element : StartElement) : String :=
  match element.Attr.find? (fun attr => decide (attr.Name.Local = "schemaLocation")) with
  | some attr => TrimSpace attr.Value
  | none => ""

/-- The sequence `r` is `v` without its leading and trailing white space: `v` is `r`
between two runs of white space, and `r` neither starts nor ends with white space. -/
def IsTrimOf (r v : List Char) : Prop :=
  ∃ pre suf, v = pre ++ r ++ suf ∧
    (∀ c ∈ pre, isSpace c = true) ∧ (∀ c ∈ suf, isSpace c = true) ∧
    (∀ c, r.head? = some c → isSpace c = false) ∧
    (∀ c, r.getLast? = some c → isSpace c = false)

/-- The local name with `import` and `include` exchanged. -/
def swapLocal (name : String) : String :=
  if name = "import" then "include" else if name = "include" then "import" else name

/-- The token with the local name of an `import` or `include` tag exchanged for the
other one, on a start tag and on the end tag the decoder hands out for it alike; any
other token is left as it is. -/
def retag : Token → Token
  | Token.StartElement element =>
    Token.StartElement
      { Name := { Space := element.Name.Space, Local := swapLocal element.Name.Local },
        Attr := element.Attr }
  | Token.EndElement name =>
    Token.EndElement { Space := name.Space, Local := swapLocal name.Local }
  | other => other

/-- The token `b` is the token `a`, or `a` with `import` and `include` exchanged. -/
def TagVariant (a b : Token) : Prop := b = a ∨ b = retag a

/-- The environment `env2` is `env` with `import` replaced by `include`, or `include`
by `import`, on some of the tags of some of the files (a start tag together with its
end tag, as the decoder reports an element, or either of them alone); nothing else
differs. -/
def Retagged (env env2 : Env) : Prop :=
  env2.Stat = env.Stat ∧ env2.isValidURL = env.isValidURL ∧
  ∀ p, (∃ err, env.Open p = Except.error err ∧ env2.Open p = Except.error err) ∨
    (∃ tokens tokens2, env.Open p = Except.ok tokens ∧ env2.Open p = Except.ok tokens2 ∧
      List.Forall₂ TagVariant tokens tokens2)

/-- The file `a.xsd` includes `b.xsd`; after that its markup is malformed, and the
include of `c.xsd` that follows is never read. -/
def brokenDisk : Env :=
  disk [("a.xsd", Node.file (tokensRead
          [Read.token (directive "include" "b.xsd"),
           Read.fail "XML syntax error on line 3: unexpected EOF",
           Read.token (directive "include" "c.xsd")])),
        ("b.xsd", Node.file []),
        ("c.xsd", Node.file [])]

/-- The name space of XML Schema. -/
def xsSpace : String := "http://www.w3.org/2001/XMLSchema"

/-- The tokens the decoder hands out for the element
`<xs:tag schemaLocation="loc"/>`: its start tag and the matching end tag. -/
def emptyElement (tag loc : String) : List Token :=
  [directive tag loc, Token.EndElement { Space := xsSpace, Local := tag }]

/-- The tokens the decoder hands out for a schema document: the start tag of the root
element `xs:schema`, the tokens of its children between line breaks, and the end tag
of the root. -/
def schemaDocument (children : List Token) : List Token :=
  Token.StartElement
      { Name := { Space := xsSpace, Local := "schema" },
        Attr := [{ Name := { Space := "xmlns", Local := "xs" }, Value := xsSpace }] } ::
    Token.CharData "\n  " :: children ++
    [Token.CharData "\n", Token.EndElement { Space := xsSpace, Local := "schema" }]

/-- Three well-formed schema documents: `schemas/A.xsd` includes `B.xsd`, which imports
`../common/C.xsd`. -/
def schemaDisk : Env :=
  disk [("schemas/A.xsd", Node.file (schemaDocument (emptyElement "include" "B.xsd"))),
        ("schemas/B.xsd",
          Node.file (schemaDocument (emptyElement "import" "../common/C.xsd"))),
        ("common/C.xsd", Node.file (schemaDocument []))]

/-- The file system `schemaDisk` with `include` and `import` exchanged in both files,
on the start tag and on the end tag of the element. -/
def schemaDiskRetagged : Env :=
  disk [("schemas/A.xsd", Node.file (schemaDocument (emptyElement "import" "B.xsd"))),
        ("schemas/B.xsd",
          Node.file (schemaDocument (emptyElement "include" "../common/C.xsd"))),
        ("common/C.xsd", Node.file (schemaDocument []))]

/-- The path splits into the directory part `d`, which is empty or ends in a separator,
and the file name `base`, which holds no separator: `d` is the directory of the file. -/
def IsDirAndName (path : String) (d base : List Char) : Prop :=
  path.data = d ++ base ∧ '/' ∉ base ∧ (d = [] ∨ d.getLast? = some '/')

/-! ## Unfolding the loop and the call -/

theorem loop_nil (env : Env) (recurse : String → State → Outcome) (fileDir : String)
    (s : State) : CollectReferencedFiles.loop env recurse fileDir [] s = some (none, s) := by
  simp [CollectReferencedFiles.loop]

theorem loop_cons (env : Env) (recurse : String → State → Outcome) (fileDir : String)
    (token : Token) (rest : List Token) (s : State) :
    CollectReferencedFiles.loop env recurse fileDir (token :: rest) s =
      match localRef env fileDir token with
      | none => CollectReferencedFiles.loop env recurse fileDir rest s
      | some refFile =>
        match env.Stat refFile with
        | Except.ok _ =>
          match recurse refFile ((s.logged (Event.stat refFile)).logged (Event.call refFile)) with
          | none => none
          | some (some err, s1) => some (some err, s1)
          | some (none, s1) => CollectReferencedFiles.loop env recurse fileDir rest s1
        | Except.error _ =>
          CollectReferencedFiles.loop env recurse fileDir rest (s.logged (Event.stat refFile)) := by
  cases token with
  | StartElement element =>
    by_cases h2 : getSchemaLocation element ≠ "" ∧ env.isValidURL (getSchemaLocation element) = false
    · by_cases h1 : element.Name.Local = "import"
      · simp [CollectReferencedFiles.loop, localRef, IsDirective, h1, h2]
      · by_cases h3 : element.Name.Local = "include"
        · simp [CollectReferencedFiles.loop, localRef, IsDirective, h1, h3, h2]
        · simp [CollectReferencedFiles.loop, localRef, IsDirective, h1, h3, h2]
    · by_cases h1 : element.Name.Local = "import"
      · simp [CollectReferencedFiles.loop, localRef, IsDirective, h1, h2]
      · by_cases h3 : element.Name.Local = "include"
        · simp [CollectReferencedFiles.loop, localRef, IsDirective, h1, h3, h2]
        · simp [CollectReferencedFiles.loop, localRef, IsDirective, h1, h3, h2]
  | _ => simp [CollectReferencedFiles.loop, localRef]

/-! ## The state only grows -/

theorem marks_append (a b : List Event) : marks (a ++ b) = marks a ++ marks b := by
  induction a with
  | nil => rfl
  | cons e rest ih => cases e <;> simp [marks, ih]

theorem Grows.refl (s : State) : Grows s s :=
  ⟨fun _ h => h, fun _ => Or.inl rfl, [], by simp, by simp [marks], by simp [marks]⟩

theorem Grows.trans {s t u : State} (h1 : Grows s t) (h2 : Grows t u) : Grows s u := by
  obtain ⟨m1, k1, n1, l1, d1, f1⟩ := h1
  obtain ⟨m2, k2, n2, l2, d2, f2⟩ := h2
  refine ⟨fun q h => m2 q (m1 q h), ?_, n1 ++ n2, ?_, ?_, ?_⟩
  · intro q
    rcases k2 q with h | h
    · rw [h]; exact k1 q
    · exact Or.inr h
  · rw [l2, l1, List.append_assoc]
  · rw [marks_append]
    refine List.Nodup.append d1 d2 ?_
    intro q hq1 hq2
    have a1 := (f1 q hq1).2
    have a2 := (f2 q hq2).1
    rw [a1] at a2
    cases a2
  · intro q hq
    rw [marks_append, List.mem_append] at hq
    rcases hq with h | h
    · exact ⟨(f1 q h).1, m2 q (f1 q h).2⟩
    · refine ⟨?_, (f2 q h).2⟩
      cases hc : s.allFiles.get q with
      | false => rfl
      | true =>
        have a1 := m1 q hc
        rw [(f2 q h).1] at a1
        cases a1

theorem Grows.logged (s : State) (e : Event) (he : marks [e] = []) : Grows s (s.logged e) :=
  ⟨fun _ h => h, fun _ => Or.inl rfl, [e], rfl, by simp [he], by simp [he]⟩

theorem FileMap.get_set_self (m : FileMap) (k : String) (b : Bool) :
    (m.set k b).get k = b := by
  simp [FileMap.get, FileMap.set]

theorem FileMap.get_set_other (m : FileMap) (k q : String) (b : Bool) (h : q ≠ k) :
    (m.set k b).get q = m.get q := by
  simp [FileMap.get, FileMap.set, h]

theorem Grows.mark (s : State) (p : String) (h : s.allFiles.get p = false) :
    Grows s (s.mark p) := by
  refine ⟨?_, ?_, [Event.mark p], rfl, by simp [marks], ?_⟩
  · intro q hq
    by_cases e : q = p
    · subst e; exact FileMap.get_set_self _ _ _
    · simpa [State.mark, FileMap.get_set_other _ _ _ _ e] using hq
  · intro q
    by_cases e : q = p
    · right; simp [State.mark, FileMap.set, e]
    · left; simp [State.mark, FileMap.set, e]
  · intro q hq
    simp [marks] at hq
    subst hq
    exact ⟨h, FileMap.get_set_self _ _ _⟩

theorem loop_skip (env : Env) (recurse : String → State → Outcome) (fileDir : String)
    (token : Token) (rest : List Token) (s : State)
    (h : localRef env fileDir token = none) :
    CollectReferencedFiles.loop env recurse fileDir (token :: rest) s =
      CollectReferencedFiles.loop env recurse fileDir rest s := by
  rw [loop_cons, h]

theorem loop_dangling (env : Env) (recurse : String → State → Outcome) (fileDir : String)
    (token : Token) (rest : List Token) (s : State) (ref : String) (e : Error)
    (h : localRef env fileDir token = some ref) (hs : env.Stat ref = Except.error e) :
    CollectReferencedFiles.loop env recurse fileDir (token :: rest) s =
      CollectReferencedFiles.loop env recurse fileDir rest (s.logged (Event.stat ref)) := by
  rw [loop_cons, h]
  simp only [hs]

theorem loop_follow_none (env : Env) (recurse : String → State → Outcome) (fileDir : String)
    (token : Token) (rest : List Token) (s : State) (ref : String) (fi : FileInfo)
    (h : localRef env fileDir token = some ref) (hs : env.Stat ref = Except.ok fi)
    (hc : recurse ref ((s.logged (Event.stat ref)).logged (Event.call ref)) = none) :
    CollectReferencedFiles.loop env recurse fileDir (token :: rest) s = none := by
  rw [loop_cons, h]
  simp only [hs, hc]

theorem loop_follow_err (env : Env) (recurse : String → State → Outcome) (fileDir : String)
    (token : Token) (rest : List Token) (s : State) (ref : String) (fi : FileInfo)
    (err : Error) (s1 : State)
    (h : localRef env fileDir token = some ref) (hs : env.Stat ref = Except.ok fi)
    (hc : recurse ref ((s.logged (Event.stat ref)).logged (Event.call ref)) =
      some (some err, s1)) :
    CollectReferencedFiles.loop env recurse fileDir (token :: rest) s = some (some err, s1) := by
  rw [loop_cons, h]
  simp only [hs, hc]

theorem loop_follow_ok (env : Env) (recurse : String → State → Outcome) (fileDir : String)
    (token : Token) (rest : List Token) (s : State) (ref : String) (fi : FileInfo)
    (s1 : State)
    (h : localRef env fileDir token = some ref) (hs : env.Stat ref = Except.ok fi)
    (hc : recurse ref ((s.logged (Event.stat ref)).logged (Event.call ref)) =
      some (none, s1)) :
    CollectReferencedFiles.loop env recurse fileDir (token :: rest) s =
      CollectReferencedFiles.loop env recurse fileDir rest s1 := by
  rw [loop_cons, h]
  simp only [hs, hc]

theorem loop_grows (env : Env) (recurse : String → State → Outcome) (fileDir : String)
    (hrec : ∀ ref s out, recurse ref s = some out → Grows s out.2) :
    ∀ (tokens : List Token) (s : State) (out : Option Error × State),
      CollectReferencedFiles.loop env recurse fileDir tokens s = some out → Grows s out.2 := by
  intro tokens
  induction tokens with
  | nil =>
    intro s out h
    rw [loop_nil] at h
    cases h
    exact Grows.refl s
  | cons token rest ih =>
    intro s out h
    cases hr : localRef env fileDir token with
    | none =>
      rw [loop_skip _ _ _ _ _ _ hr] at h
      exact ih s out h
    | some ref =>
      have g1 : Grows s (s.logged (Event.stat ref)) := Grows.logged s _ rfl
      cases hs : env.Stat ref with
      | error e =>
        rw [loop_dangling _ _ _ _ _ _ _ _ hr hs] at h
        exact g1.trans (ih _ out h)
      | ok fi =>
        have g2 : Grows s ((s.logged (Event.stat ref)).logged (Event.call ref)) :=
          g1.trans (Grows.logged _ _ rfl)
        cases hc : recurse ref ((s.logged (Event.stat ref)).logged (Event.call ref)) with
        | none => rw [loop_follow_none _ _ _ _ _ _ _ _ hr hs hc] at h; cases h
        | some res =>
          have g3 := hrec _ _ _ hc
          obtain ⟨r, s1⟩ := res
          cases r with
          | some err =>
            rw [loop_follow_err _ _ _ _ _ _ _ _ _ _ hr hs hc] at h
            cases h
            exact g2.trans g3
          | none =>
            rw [loop_follow_ok _ _ _ _ _ _ _ _ _ hr hs hc] at h
            exact (g2.trans g3).trans (ih _ out h)

theorem collect_grows {Options : Type} (env : Env) (inputDir : String) (options : Options) :
    ∀ (fuel : Nat) (filePath : String) (s : State) (out : Option Error × State),
      CollectReferencedFiles env fuel filePath inputDir s options = some out →
      Grows s out.2 := by
  intro fuel
  induction fuel with
  | zero => intro filePath s out h; simp [CollectReferencedFiles] at h
  | succ fuel ih =>
    intro filePath s out h
    unfold CollectReferencedFiles at h
    cases hv : s.allFiles.get filePath with
    | true =>
      simp [hv] at h
      subst h
      exact Grows.refl s
    | false =>
      simp only [hv, Bool.false_eq_true, if_false] at h
      have g1 : Grows s ((s.mark filePath).logged (Event.stat filePath)) :=
        (Grows.mark s filePath hv).trans (Grows.logged _ _ rfl)
      cases hs : env.Stat filePath with
      | error e =>
        rw [hs] at h
        cases h
        exact g1
      | ok fi =>
        rw [hs] at h
        cases hd : fi.IsDir with
        | true =>
          simp [hd] at h
          subst h
          exact g1
        | false =>
          simp only [hd, Bool.false_eq_true, if_false] at h
          have g2 := g1.trans (Grows.logged _ (Event.osOpen filePath) rfl)
          cases ho : env.Open filePath with
          | error e =>
            rw [ho] at h
            cases h
            exact g2
          | ok tokens =>
            rw [ho] at h
            exact g2.trans (loop_grows env _ _ (fun ref t out hh => ih ref t out hh) tokens _ out h)

/-! ## The cases of a call -/

theorem collect_zero {Options : Type} (env : Env) (filePath inputDir : String) (s : State)
    (options : Options) :
    CollectReferencedFiles env 0 filePath inputDir s options = none := rfl

theorem collect_visited {Options : Type} (env : Env) (fuel : Nat)
    (filePath inputDir : String) (s : State) (options : Options)
    (hv : s.allFiles.get filePath = true) :
    CollectReferencedFiles env (fuel + 1) filePath inputDir s options = some (none, s) := by
  simp [CollectReferencedFiles, hv]

theorem collect_stat_err {Options : Type} (env : Env) (fuel : Nat)
    (filePath inputDir : String) (s : State) (options : Options) (err : Error)
    (hv : s.allFiles.get filePath = false) (hs : env.Stat filePath = Except.error err) :
    CollectReferencedFiles env (fuel + 1) filePath inputDir s options =
      some (some err, (s.mark filePath).logged (Event.stat filePath)) := by
  simp [CollectReferencedFiles, hv, hs]

theorem collect_dir {Options : Type} (env : Env) (fuel : Nat)
    (filePath inputDir : String) (s : State) (options : Options) (fi : FileInfo)
    (hv : s.allFiles.get filePath = false) (hs : env.Stat filePath = Except.ok fi)
    (hd : fi.IsDir = true) :
    CollectReferencedFiles env (fuel + 1) filePath inputDir s options =
      some (none, (s.mark filePath).logged (Event.stat filePath)) := by
  simp [CollectReferencedFiles, hv, hs, hd]

theorem collect_open_err {Options : Type} (env : Env) (fuel : Nat)
    (filePath inputDir : String) (s : State) (options : Options) (fi : FileInfo)
    (err : Error)
    (hv : s.allFiles.get filePath = false) (hs : env.Stat filePath = Except.ok fi)
    (hd : fi.IsDir = false) (ho : env.Open filePath = Except.error err) :
    CollectReferencedFiles env (fuel + 1) filePath inputDir s options =
      some (some err,
        ((s.mark filePath).logged (Event.stat filePath)).logged (Event.osOpen filePath)) := by
  simp [CollectReferencedFiles, hv, hs, hd, ho]

theorem collect_file {Options : Type} (env : Env) (fuel : Nat)
    (filePath inputDir : String) (s : State) (options : Options) (fi : FileInfo)
    (tokens : List Token)
    (hv : s.allFiles.get filePath = false) (hs : env.Stat filePath = Except.ok fi)
    (hd : fi.IsDir = false) (ho : env.Open filePath = Except.ok tokens) :
    CollectReferencedFiles env (fuel + 1) filePath inputDir s options =
      CollectReferencedFiles.loop env
        (fun refFile t => CollectReferencedFiles env fuel refFile inputDir t options)
        (Dir filePath) tokens
        (((s.mark filePath).logged (Event.stat filePath)).logged (Event.osOpen filePath)) := by
  simp [CollectReferencedFiles, hv, hs, hd, ho]

/-! ## More fuel does not change an outcome -/

theorem loop_mono_rec (env : Env) (rec1 rec2 : String → State → Outcome) (fileDir : String)
    (hrec : ∀ ref s out, rec1 ref s = some out → rec2 ref s = some out) :
    ∀ (tokens : List Token) (s : State) (out : Option Error × State),
      CollectReferencedFiles.loop env rec1 fileDir tokens s = some out →
      CollectReferencedFiles.loop env rec2 fileDir tokens s = some out := by
  intro tokens
  induction tokens with
  | nil => intro s out h; rw [loop_nil] at h ⊢; exact h
  | cons token rest ih =>
    intro s out h
    cases hr : localRef env fileDir token with
    | none =>
      rw [loop_skip _ _ _ _ _ _ hr] at h ⊢
      exact ih s out h
    | some ref =>
      cases hs : env.Stat ref with
      | error e =>
        rw [loop_dangling _ _ _ _ _ _ _ _ hr hs] at h ⊢
        exact ih _ out h
      | ok fi =>
        cases hc : rec1 ref ((s.logged (Event.stat ref)).logged (Event.call ref)) with
        | none => rw [loop_follow_none _ _ _ _ _ _ _ _ hr hs hc] at h; cases h
        | some res =>
          have hc2 := hrec _ _ _ hc
          obtain ⟨r, s1⟩ := res
          cases r with
          | some err =>
            rw [loop_follow_err _ _ _ _ _ _ _ _ _ _ hr hs hc] at h
            rw [loop_follow_err _ _ _ _ _ _ _ _ _ _ hr hs hc2]
            exact h
          | none =>
            rw [loop_follow_ok _ _ _ _ _ _ _ _ _ hr hs hc] at h
            rw [loop_follow_ok _ _ _ _ _ _ _ _ _ hr hs hc2]
            exact ih _ out h

theorem collect_fuel_succ {Options : Type} (env : Env) (inputDir : String)
    (options : Options) :
    ∀ (fuel : Nat) (filePath : String) (s : State) (out : Option Error × State),
      CollectReferencedFiles env fuel filePath inputDir s options = some out →
      CollectReferencedFiles env (fuel + 1) filePath inputDir s options = some out := by
  intro fuel
  induction fuel with
  | zero => intro filePath s out h; rw [collect_zero] at h; cases h
  | succ fuel ih =>
    intro filePath s out h
    cases hv : s.allFiles.get filePath with
    | true => rw [collect_visited _ _ _ _ _ _ hv] at h ⊢; exact h
    | false =>
      cases hs : env.Stat filePath with
      | error e => rw [collect_stat_err _ _ _ _ _ _ _ hv hs] at h ⊢; exact h
      | ok fi =>
        cases hd : fi.IsDir with
        | true => rw [collect_dir _ _ _ _ _ _ _ hv hs hd] at h ⊢; exact h
        | false =>
          cases ho : env.Open filePath with
          | error e => rw [collect_open_err _ _ _ _ _ _ _ _ hv hs hd ho] at h ⊢; exact h
          | ok tokens =>
            rw [collect_file _ _ _ _ _ _ _ _ hv hs hd ho] at h ⊢
            exact loop_mono_rec env _ _ _ (fun ref t o hh => ih ref t o hh) tokens _ out h

theorem collect_fuel_le {Options : Type} (env : Env) (inputDir : String)
    (options : Options) (fuel fuel2 : Nat) (hle : fuel ≤ fuel2) (filePath : String)
    (s : State) (out : Option Error × State)
    (h : CollectReferencedFiles env fuel filePath inputDir s options = some out) :
    CollectReferencedFiles env fuel2 filePath inputDir s options = some out := by
  induction hle with
  | refl => exact h
  | step _ ih => exact collect_fuel_succ env inputDir options _ _ _ _ ih

/-! ## Termination -/

theorem unvisited_mono (L : List String) (m n : FileMap)
    (h : ∀ q, m.get q = true → n.get q = true) : unvisited L n ≤ unvisited L m := by
  unfold unvisited
  apply Finset.card_le_card
  intro q hq
  rw [Finset.mem_filter] at hq ⊢
  refine ⟨hq.1, ?_⟩
  cases hm : m.get q with
  | false => rfl
  | true => have := h q hm; rw [hq.2] at this; cases this

theorem unvisited_set_lt (L : List String) (m : FileMap) (p : String) (hp : p ∈ L)
    (hv : m.get p = false) : unvisited L (m.set p true) < unvisited L m := by
  unfold unvisited
  apply Finset.card_lt_card
  rw [Finset.ssubset_iff_of_subset]
  · refine ⟨p, ?_, ?_⟩
    · simp [hp, hv]
    · simp [FileMap.get_set_self]
  · intro q hq
    rw [Finset.mem_filter] at hq ⊢
    refine ⟨hq.1, ?_⟩
    by_cases e : q = p
    · subst e; exact hv
    · rw [FileMap.get_set_other _ _ _ _ e] at hq; exact hq.2

theorem localRef_join (env : Env) (fileDir : String) (token : Token) (ref : String)
    (h : localRef env fileDir token = some ref) : ∃ loc, ref = Join [fileDir, loc] := by
  cases token with
  | StartElement element =>
    simp only [localRef] at h
    split at h
    · cases h; exact ⟨_, rfl⟩
    · cases h
  | _ => simp [localRef] at h

theorem unvisited_le_length (L : List String) (m : FileMap) : unvisited L m ≤ L.length := by
  unfold unvisited
  exact (Finset.card_filter_le _ _).trans (List.toFinset_card_le L)

theorem loop_terminates (env : Env) (L : List String) (recurse : String → State → Outcome)
    (fileDir : String) (n : Nat)
    (hrec : ∀ loc t, unvisited L t.allFiles ≤ n →
      ∃ out, recurse (Join [fileDir, loc]) t = some out)
    (hgrow : ∀ ref t out, recurse ref t = some out → Grows t out.2) :
    ∀ (tokens : List Token) (s : State), unvisited L s.allFiles ≤ n →
      ∃ out, CollectReferencedFiles.loop env recurse fileDir tokens s = some out := by
  intro tokens
  induction tokens with
  | nil => intro s _; exact ⟨_, loop_nil _ _ _ _⟩
  | cons token rest ih =>
    intro s hn
    cases hr : localRef env fileDir token with
    | none =>
      rw [loop_skip _ _ _ _ _ _ hr]
      exact ih s hn
    | some ref =>
      cases hs : env.Stat ref with
      | error e =>
        rw [loop_dangling _ _ _ _ _ _ _ _ hr hs]
        exact ih _ hn
      | ok fi =>
        obtain ⟨loc, hloc⟩ := localRef_join _ _ _ _ hr
        obtain ⟨res, hc⟩ := hrec loc ((s.logged (Event.stat ref)).logged (Event.call ref))
          hn
        rw [← hloc] at hc
        have g := hgrow _ _ _ hc
        obtain ⟨r, s1⟩ := res
        cases r with
        | some err =>
          exact ⟨_, loop_follow_err _ _ _ _ _ _ _ _ _ _ hr hs hc⟩
        | none =>
          rw [loop_follow_ok _ _ _ _ _ _ _ _ _ hr hs hc]
          apply ih
          exact (unvisited_mono L _ _ g.1).trans hn

theorem collect_terminates_target {Options : Type} (env : Env) (L : List String)
    (hfin : FiniteTargets env L) (inputDir : String) (options : Options) :
    ∀ (fuel : Nat) (filePath : String) (s : State),
      (Exists env filePath → filePath ∈ L) → unvisited L s.allFiles < fuel →
      ∃ out, CollectReferencedFiles env fuel filePath inputDir s options = some out := by
  intro fuel
  induction fuel with
  | zero => intro filePath s _ h; omega
  | succ fuel ih =>
    intro filePath s hin hlt
    cases hv : s.allFiles.get filePath with
    | true => exact ⟨_, collect_visited _ _ _ _ _ _ hv⟩
    | false =>
      cases hs : env.Stat filePath with
      | error e => exact ⟨_, collect_stat_err _ _ _ _ _ _ _ hv hs⟩
      | ok fi =>
        cases hd : fi.IsDir with
        | true => exact ⟨_, collect_dir _ _ _ _ _ _ _ hv hs hd⟩
        | false =>
          cases ho : env.Open filePath with
          | error e => exact ⟨_, collect_open_err _ _ _ _ _ _ _ _ hv hs hd ho⟩
          | ok tokens =>
            rw [collect_file _ _ _ _ _ _ _ _ hv hs hd ho]
            have hlt2 := unvisited_set_lt L s.allFiles filePath (hin ⟨fi, hs⟩) hv
            apply loop_terminates env L _ _ (unvisited L (s.allFiles.set filePath true))
            · intro loc t ht
              exact ih _ t (hfin _ loc) (by omega)
            · intro ref t out hh
              exact collect_grows env inputDir options fuel ref t out hh
            · exact le_refl _

theorem collect_terminates {Options : Type} (env : Env) (L : List String)
    (hfin : FiniteTargets env L) (inputDir : String) (options : Options)
    (fuel : Nat) (hfuel : L.length + 1 < fuel) (filePath : String) (s : State) :
    ∃ out, CollectReferencedFiles env fuel filePath inputDir s options = some out := by
  obtain ⟨k, rfl⟩ : ∃ k, fuel = k + 1 := ⟨fuel - 1, by omega⟩
  cases hv : s.allFiles.get filePath with
  | true => exact ⟨_, collect_visited _ _ _ _ _ _ hv⟩
  | false =>
    cases hs : env.Stat filePath with
    | error e => exact ⟨_, collect_stat_err _ _ _ _ _ _ _ hv hs⟩
    | ok fi =>
      cases hd : fi.IsDir with
      | true => exact ⟨_, collect_dir _ _ _ _ _ _ _ hv hs hd⟩
      | false =>
        cases ho : env.Open filePath with
        | error e => exact ⟨_, collect_open_err _ _ _ _ _ _ _ _ hv hs hd ho⟩
        | ok tokens =>
          rw [collect_file _ _ _ _ _ _ _ _ hv hs hd ho]
          apply loop_terminates env L _ _ L.length
          · intro loc t _
            exact collect_terminates_target env L hfin inputDir options k _ t (hfin _ loc)
              (by have := unvisited_le_length L t.allFiles; omega)
          · intro ref t out hh
            exact collect_grows env inputDir options k ref t out hh
          · exact unvisited_le_length L _

/-! ## Depth-first exploration -/

theorem localRef_start (env : Env) (fileDir : String) (element : StartElement)
    (hd : IsDirective element) (hne : getSchemaLocation element ≠ "")
    (hurl : env.isValidURL (getSchemaLocation element) = false) :
    localRef env fileDir (Token.StartElement element) =
      some (Join [fileDir, getSchemaLocation element]) := by
  simp [localRef, hd, hne, hurl]

theorem localRef_some (env : Env) (fileDir : String) (token : Token) (ref : String)
    (h : localRef env fileDir token = some ref) :
    ∃ element, token = Token.StartElement element ∧ IsDirective element ∧
      getSchemaLocation element ≠ "" ∧ env.isValidURL (getSchemaLocation element) = false ∧
      ref = Join [fileDir, getSchemaLocation element] := by
  cases token with
  | StartElement element =>
    simp only [localRef] at h
    split at h
    · rename_i hc
      cases h
      exact ⟨element, rfl, hc.1, hc.2.1, hc.2.2, rfl⟩
    · cases h
  | _ => simp [localRef] at h

theorem get_eq_false_of_ne_true (m : FileMap) (q : String) (h : ¬ m.get q = true) :
    m.get q = false := by
  cases hq : m.get q with
  | false => rfl
  | true => exact absurd hq h

theorem loop_explored (env : Env) (recurse : String → State → Outcome) (fileDir : String)
    (hgrow : ∀ ref s out, recurse ref s = some out → Grows s out.2)
    (hrec : ∀ ref s t, recurse ref s = some (none, t) → Explored env ref s t) :
    ∀ (tokens : List Token) (s t : State),
      CollectReferencedFiles.loop env recurse fileDir tokens s = some (none, t) →
      (∀ q, t.allFiles.get q = true → s.allFiles.get q = true ∨
        ∃ tok ∈ tokens, ∃ ref, localRef env fileDir tok = some ref ∧ Exists env ref ∧
          Reach env ref q) ∧
      (∀ x, t.allFiles.get x = true → s.allFiles.get x = false →
        ∀ y, Edge env x y → t.allFiles.get y = true) ∧
      (∀ tok ∈ tokens, ∀ ref, localRef env fileDir tok = some ref → Exists env ref →
        t.allFiles.get ref = true) := by
  intro tokens
  induction tokens with
  | nil =>
    intro s t h
    rw [loop_nil] at h
    cases h
    refine ⟨fun q hq => Or.inl hq, ?_, ?_⟩
    · intro x hx hx2; rw [hx] at hx2; cases hx2
    · intro tok htok; cases htok
  | cons token rest ih =>
    intro s t h
    cases hr : localRef env fileDir token with
    | none =>
      rw [loop_skip _ _ _ _ _ _ hr] at h
      obtain ⟨a, b, c⟩ := ih s t h
      refine ⟨?_, b, ?_⟩
      · intro q hq
        rcases a q hq with h1 | ⟨tok, htok, rest2⟩
        · exact Or.inl h1
        · exact Or.inr ⟨tok, List.mem_cons_of_mem _ htok, rest2⟩
      · intro tok htok ref href hex
        rcases List.mem_cons.mp htok with e | e
        · subst e; rw [hr] at href; cases href
        · exact c tok e ref href hex
    | some ref0 =>
      cases hs : env.Stat ref0 with
      | error e =>
        rw [loop_dangling _ _ _ _ _ _ _ _ hr hs] at h
        obtain ⟨a, b, c⟩ := ih _ t h
        refine ⟨?_, b, ?_⟩
        · intro q hq
          rcases a q hq with h1 | ⟨tok, htok, rest2⟩
          · exact Or.inl h1
          · exact Or.inr ⟨tok, List.mem_cons_of_mem _ htok, rest2⟩
        · intro tok htok ref href hex
          rcases List.mem_cons.mp htok with e1 | e1
          · subst e1
            rw [hr] at href
            cases href
            obtain ⟨fi, hfi⟩ := hex
            rw [hs] at hfi
            cases hfi
          · exact c tok e1 ref href hex
      | ok fi =>
        cases hc : recurse ref0 ((s.logged (Event.stat ref0)).logged (Event.call ref0)) with
        | none => rw [loop_follow_none _ _ _ _ _ _ _ _ hr hs hc] at h; cases h
        | some res =>
          obtain ⟨r, s1⟩ := res
          cases r with
          | some err =>
            rw [loop_follow_err _ _ _ _ _ _ _ _ _ _ hr hs hc] at h
            cases h
          | none =>
            rw [loop_follow_ok _ _ _ _ _ _ _ _ _ hr hs hc] at h
            obtain ⟨a, b, c⟩ := ih s1 t h
            obtain ⟨e1, e2, e3⟩ := hrec _ _ _ hc
            have g := loop_grows env recurse fileDir hgrow rest s1 _ h
            refine ⟨?_, ?_, ?_⟩
            · intro q hq
              rcases a q hq with h1 | ⟨tok, htok, rest2⟩
              · rcases e2 q h1 with h2 | h2
                · exact Or.inl h2
                · exact Or.inr ⟨token, List.mem_cons_self _ _, ref0, hr, ⟨fi, hs⟩, h2⟩
              · exact Or.inr ⟨tok, List.mem_cons_of_mem _ htok, rest2⟩
            · intro x hx hx2 y hy
              by_cases h1 : s1.allFiles.get x = true
              · exact g.1 y (e3 x h1 hx2 y hy)
              · exact b x hx (get_eq_false_of_ne_true _ _ h1) y hy
            · intro tok htok ref href hex
              rcases List.mem_cons.mp htok with e | e
              · subst e
                rw [hr] at href
                cases href
                exact g.1 _ e1
              · exact c tok e ref href hex

theorem collect_explored {Options : Type} (env : Env) (inputDir : String)
    (options : Options) :
    ∀ (fuel : Nat) (filePath : String) (s t : State),
      CollectReferencedFiles env fuel filePath inputDir s options = some (none, t) →
      Explored env filePath s t := by
  intro fuel
  induction fuel with
  | zero => intro filePath s t h; rw [collect_zero] at h; cases h
  | succ fuel ih =>
    intro filePath s t h
    cases hv : s.allFiles.get filePath with
    | true =>
      rw [collect_visited _ _ _ _ _ _ hv] at h
      cases h
      refine ⟨hv, fun q hq => Or.inl hq, ?_⟩
      intro x hx hx2; rw [hx] at hx2; cases hx2
    | false =>
      have key : ∀ x, (s.allFiles.set filePath true).get x = true →
          s.allFiles.get x = false → x = filePath := by
        intro x hx hx2
        by_contra hne
        rw [FileMap.get_set_other _ _ _ _ hne, hx2] at hx
        cases hx
      have key2 : ∀ x, (s.allFiles.set filePath true).get x = true →
          s.allFiles.get x = true ∨ x = filePath := by
        intro x hx
        by_cases hne : x = filePath
        · exact Or.inr hne
        · rw [FileMap.get_set_other _ _ _ _ hne] at hx; exact Or.inl hx
      cases hs : env.Stat filePath with
      | error e => rw [collect_stat_err _ _ _ _ _ _ _ hv hs] at h; cases h
      | ok fi =>
        cases hd : fi.IsDir with
        | true =>
          rw [collect_dir _ _ _ _ _ _ _ hv hs hd] at h
          cases h
          refine ⟨FileMap.get_set_self _ _ _, ?_, ?_⟩
          · intro q hq
            rcases key2 q hq with h1 | h1
            · exact Or.inl h1
            · subst h1; exact Or.inr Relation.ReflTransGen.refl
          · intro x hx hx2 y hy
            have hxp := key x hx hx2
            subst hxp
            obtain ⟨fi2, _, _, hst, hnd, _⟩ := hy
            rw [hs] at hst
            cases hst
            rw [hd] at hnd
            cases hnd
        | false =>
          cases ho : env.Open filePath with
          | error e => rw [collect_open_err _ _ _ _ _ _ _ _ hv hs hd ho] at h; cases h
          | ok tokens =>
            rw [collect_file _ _ _ _ _ _ _ _ hv hs hd ho] at h
            have hgrow : ∀ ref (u : State) out,
                CollectReferencedFiles env fuel ref inputDir u options = some out →
                Grows u out.2 :=
              fun ref u out hh => collect_grows env inputDir options fuel ref u out hh
            have g := loop_grows env _ _ hgrow tokens _ _ h
            obtain ⟨a, b, c⟩ := loop_explored env _ (Dir filePath) hgrow
              (fun ref u v hh => ih ref u v hh) tokens _ t h
            have hedge : ∀ tok ∈ tokens, ∀ ref, localRef env (Dir filePath) tok = some ref →
                Exists env ref → Edge env filePath ref := by
              intro tok htok ref href hex
              obtain ⟨element, rfl, h1, h2, h3, h4⟩ := localRef_some _ _ _ _ href
              exact ⟨fi, tokens, element, hs, hd, ho, htok, h1, h2, h3, h4, hex⟩
            refine ⟨g.1 _ (FileMap.get_set_self _ _ _), ?_, ?_⟩
            · intro q hq
              rcases a q hq with h1 | ⟨tok, htok, ref, href, hex, hreach⟩
              · rcases key2 q h1 with h2 | h2
                · exact Or.inl h2
                · subst h2; exact Or.inr Relation.ReflTransGen.refl
              · exact Or.inr (Relation.ReflTransGen.head (hedge tok htok ref href hex) hreach)
            · intro x hx hx2 y hy
              by_cases h1 : (s.allFiles.set filePath true).get x = true
              · have hxp := key x h1 hx2
                subst hxp
                obtain ⟨fi2, tokens2, element, _, _, hop, hmem, k1, k2, k3, k4, k5⟩ := hy
                rw [ho] at hop
                cases hop
                subst k4
                exact c _ hmem _ (localRef_start _ _ _ k1 k2 k3) k5
              · exact b x hx (get_eq_false_of_ne_true _ _ h1) y hy

theorem reach_visited (env : Env) (entry : String) (s t : State)
    (hs : ∀ q, s.allFiles.get q = false) (h : Explored env entry s t) :
    ∀ p, Reach env entry p → t.allFiles.get p = true := by
  intro p hp
  induction hp with
  | refl => exact h.1
  | tail _ hedge ih => exact h.2.2 _ ih (hs _) _ hedge

/-! ## Concrete file systems: existence -/

theorem disk_exists_mem (nodes : List (String × Node)) (p : String)
    (h : Exists (disk nodes) p) : p ∈ nodes.map Prod.fst := by
  obtain ⟨fi, hfi⟩ := h
  cases hl : nodes.lookup p with
  | none => simp [disk, hl] at hfi
  | some v =>
    clear hfi
    induction nodes with
    | nil => simp [List.lookup] at hl
    | cons hd tl ih =>
      obtain ⟨k, w⟩ := hd
      by_cases e : p = k
      · simp [e]
      · have hb : (p == k) = false := by simpa using e
        simp only [List.lookup, hb] at hl
        simp only [List.map_cons, List.mem_cons]
        exact Or.inr (ih hl)

theorem disk_finite (nodes : List (String × Node)) :
    FiniteTargets (disk nodes) (nodes.map Prod.fst) :=
  fun _ _ h => disk_exists_mem nodes _ h

/-! ## The claims -/

/-- C1: when `CollectReferencedFiles` is called with an empty visited map and returns no
error, the keys of the visited map are exactly the paths reachable from the entry path
in the reference graph. -/
theorem visited_keys_eq_reachable {Options : Type} (env : Env) (fuel : Nat)
    (entry inputDir : String) (log : List Event) (options : Options) (t : State)
    (h : CollectReferencedFiles env fuel entry inputDir
      { allFiles := FileMap.empty, log := log } options = some (none, t)) :
    ∀ p, t.allFiles.HasKey p ↔ Reach env entry p := by
  have g := collect_grows env inputDir options fuel entry _ _ h
  have e := collect_explored env inputDir options fuel entry _ _ h
  intro p
  constructor
  · intro hk
    have ht : t.allFiles p = some true := by
      rcases g.2.1 p with h1 | h1
      · exact absurd h1 hk
      · exact h1
    have hget : t.allFiles.get p = true := by simp [FileMap.get, ht]
    rcases e.2.1 p hget with h2 | h2
    · simp [FileMap.get, FileMap.empty] at h2
    · exact h2
  · intro hr
    have hget := reach_visited env entry { allFiles := FileMap.empty, log := log } t
      (fun q => rfl) e p hr
    intro hn
    simp [FileMap.get, hn] at hget

/-- Witness for C1: `schemas/A.xsd` includes `B.xsd`, which imports `../common/C.xsd`. -/
theorem visited_keys_eq_reachable_witness :
    ∃ t, CollectReferencedFiles chainDisk 3 "schemas/A.xsd" "schemas" State.initial () =
        some (none, t) ∧
      (∀ p, t.allFiles.HasKey p ↔ Reach chainDisk "schemas/A.xsd" p) ∧
      [t.allFiles "schemas/A.xsd", t.allFiles "schemas/B.xsd", t.allFiles "common/C.xsd",
        t.allFiles "B.xsd"] = [some true, some true, some true, none] :=
  ⟨_, rfl, visited_keys_eq_reachable chainDisk 3 "schemas/A.xsd" "schemas" [] () _ rfl,
    by decide⟩

/-- C2: on a file system with finitely many reference targets, `CollectReferencedFiles`
returns for every entry path and every initial state, with one and the same outcome for
every fuel above the number of targets plus one, and the events it adds to the log mark
each path at most once. -/
theorem collect_terminates_marks_once {Options : Type} (env : Env) (L : List String)
    (hfin : FiniteTargets env L) (filePath inputDir : String) (s : State)
    (options : Options) :
    ∃ (r : Option Error) (t : State) (new : List Event),
      (∀ fuel, L.length + 1 < fuel →
        CollectReferencedFiles env fuel filePath inputDir s options = some (r, t)) ∧
      t.log = s.log ++ new ∧ (marks new).Nodup := by
  obtain ⟨⟨r, t⟩, h⟩ := collect_terminates env L hfin inputDir options (L.length + 2)
    (by omega) filePath s
  obtain ⟨_, _, new, hlog, hnd, _⟩ := collect_grows env inputDir options _ _ _ _ h
  refine ⟨r, t, new, ?_, hlog, hnd⟩
  intro fuel hf
  exact collect_fuel_le env inputDir options (L.length + 2) fuel (by omega) _ _ _ h

/-- Witness for C2: two files that reference each other. -/
theorem collect_terminates_marks_once_witness :
    FiniteTargets cycleDisk ["a.xsd", "b.xsd"] ∧
    ∃ (r : Option Error) (t : State) (new : List Event),
      (∀ fuel, ["a.xsd", "b.xsd"].length + 1 < fuel →
        CollectReferencedFiles cycleDisk fuel "a.xsd" "" State.initial () = some (r, t)) ∧
      t.log = State.initial.log ++ new ∧ (marks new).Nodup :=
  ⟨disk_finite _,
    collect_terminates_marks_once cycleDisk ["a.xsd", "b.xsd"] (disk_finite _) "a.xsd" ""
      State.initial ()⟩


/-- C3, as amended: for every path that the visited map holds as `true`,
`CollectReferencedFiles` returns success and leaves the state unchanged (the visited map
and the log: no file-system access), whatever the file system is. -/
theorem visited_true_returns_unchanged {Options : Type} (env : Env) (fuel : Nat)
    (filePath inputDir : String) (s : State) (options : Options)
    (hv : s.allFiles filePath = some true) :
    CollectReferencedFiles env (fuel + 1) filePath inputDir s options = some (none, s) :=
  collect_visited env fuel filePath inputDir s options (by simp [FileMap.get, hv])

/-- Witness for C3 as amended: a visited path that does not exist. -/
theorem visited_true_returns_unchanged_witness :
    (FileMap.empty.set "gone.xsd" true) "gone.xsd" = some true ∧
    CollectReferencedFiles emptyDisk 1 "gone.xsd" ""
      { allFiles := FileMap.empty.set "gone.xsd" true, log := [] } () =
      some (none, { allFiles := FileMap.empty.set "gone.xsd" true, log := [] }) :=
  ⟨by decide, visited_true_returns_unchanged emptyDisk 0 "gone.xsd" "" _ () (by decide)⟩

/-- Counterexample to C3 as stated: the path `a.xsd` is a key of the map, held as
`false`; the call does not return at once: it stats the path, returns the error of
`os.Stat` and has changed the entry to `true`. -/
theorem visited_false_key_not_skipped :
    (FileMap.empty.set "a.xsd" false).HasKey "a.xsd" ∧
    Option.map (fun out => (out.1, out.2.allFiles "a.xsd", out.2.log))
      (CollectReferencedFiles emptyDisk 1 "a.xsd" ""
        { allFiles := FileMap.empty.set "a.xsd" false, log := [] } ()) =
      some (some "stat a.xsd: no such file or directory", some true,
        [Event.mark "a.xsd", Event.stat "a.xsd"]) := by
  constructor
  · simp [FileMap.HasKey, FileMap.set]
  · decide

/-- C4: whatever a first call returned (success or an error), a second call with the
same entry path on the state left by the first returns no error and leaves the state
unchanged, on any file system. -/
theorem second_call_is_noop {Options : Type} (env env2 : Env) (fuel fuel2 : Nat)
    (filePath inputDir inputDir2 : String) (s t : State) (options options2 : Options)
    (r : Option Error)
    (h : CollectReferencedFiles env fuel filePath inputDir s options = some (r, t)) :
    CollectReferencedFiles env2 (fuel2 + 1) filePath inputDir2 t options2 =
      some (none, t) := by
  apply collect_visited
  cases fuel with
  | zero => rw [collect_zero] at h; cases h
  | succ k =>
    cases hv : s.allFiles.get filePath with
    | true =>
      rw [collect_visited _ _ _ _ _ _ hv] at h
      cases h
      exact hv
    | false =>
      have hm : (s.mark filePath).allFiles.get filePath = true := FileMap.get_set_self _ _ _
      have hk : ∀ out, CollectReferencedFiles env k.succ filePath inputDir s options =
          some out → Grows (s.mark filePath) out.2 := by
        intro out hout
        cases hs : env.Stat filePath with
        | error e =>
          rw [collect_stat_err _ _ _ _ _ _ _ hv hs] at hout
          cases hout
          exact Grows.logged _ _ rfl
        | ok fi =>
          cases hd : fi.IsDir with
          | true =>
            rw [collect_dir _ _ _ _ _ _ _ hv hs hd] at hout
            cases hout
            exact Grows.logged _ _ rfl
          | false =>
            have g2 : Grows (s.mark filePath)
                (((s.mark filePath).logged (Event.stat filePath)).logged
                  (Event.osOpen filePath)) :=
              (Grows.logged (s.mark filePath) (Event.stat filePath) rfl).trans
                (Grows.logged _ (Event.osOpen filePath) rfl)
            cases ho : env.Open filePath with
            | error e =>
              rw [collect_open_err _ _ _ _ _ _ _ _ hv hs hd ho] at hout
              cases hout
              exact g2
            | ok tokens =>
              rw [collect_file _ _ _ _ _ _ _ _ hv hs hd ho] at hout
              exact g2.trans (loop_grows env _ _
                (fun ref u o hh => collect_grows env inputDir options k ref u o hh)
                tokens _ out hout)
      exact (hk _ h).1 _ hm

/-- Witness for C4: the first call fails on a missing entry path, the second succeeds. -/
theorem second_call_is_noop_witness :
    ∃ t, CollectReferencedFiles emptyDisk 1 "a.xsd" "" State.initial () =
        some (some "stat a.xsd: no such file or directory", t) ∧
      CollectReferencedFiles emptyDisk 1 "a.xsd" "" t () = some (none, t) :=
  ⟨_, rfl, second_call_is_noop emptyDisk emptyDisk 1 0 "a.xsd" "" "" State.initial _ () ()
    _ rfl⟩


theorem loop_all_visited {Options : Type} (env : Env) (fuel : Nat) (inputDir : String)
    (options : Options) (fileDir entry : String) :
    ∀ (tokens : List Token) (s : State), s.allFiles.get entry = true →
      (∀ tok ∈ tokens, ∀ ref, localRef env fileDir tok = some ref → ref = entry) →
      ∃ t, CollectReferencedFiles.loop env
          (fun refFile u => CollectReferencedFiles env (fuel + 1) refFile inputDir u options)
          fileDir tokens s = some (none, t) ∧ t.allFiles = s.allFiles := by
  intro tokens
  induction tokens with
  | nil => intro s _ _; exact ⟨s, loop_nil _ _ _ _, rfl⟩
  | cons token rest ih =>
    intro s hv honly
    have honly2 : ∀ tok ∈ rest, ∀ ref, localRef env fileDir tok = some ref → ref = entry :=
      fun tok htok => honly tok (List.mem_cons_of_mem _ htok)
    cases hr : localRef env fileDir token with
    | none =>
      rw [loop_skip _ _ _ _ _ _ hr]
      exact ih s hv honly2
    | some ref =>
      have href := honly token (List.mem_cons_self _ _) ref hr
      subst href
      cases hs : env.Stat ref with
      | error e =>
        rw [loop_dangling _ _ _ _ _ _ _ _ hr hs]
        exact ih _ hv honly2
      | ok fi =>
        rw [loop_follow_ok _ _ _ _ _ _ _ fi _ hr hs
          (collect_visited env fuel ref inputDir
            ((s.logged (Event.stat ref)).logged (Event.call ref)) options hv)]
        exact ih _ hv honly2

/-- C5, as amended: for a regular file all of whose local references resolve to the
entry path itself (a file that includes itself and has no other local reference, entered
under the path string that its own reference resolves to), the call with an empty
visited map returns no error and the visited map is exactly the entry path. -/
theorem self_reference_singleton {Options : Type} (env : Env) (fuel : Nat)
    (entry inputDir : String) (log : List Event) (options : Options) (fi : FileInfo)
    (tokens : List Token)
    (hs : env.Stat entry = Except.ok fi) (hd : fi.IsDir = false)
    (ho : env.Open entry = Except.ok tokens)
    (honly : ∀ tok ∈ tokens, ∀ ref, localRef env (Dir entry) tok = some ref → ref = entry) :
    ∃ t, CollectReferencedFiles env (fuel + 2) entry inputDir
        { allFiles := FileMap.empty, log := log } options = some (none, t) ∧
      t.allFiles = FileMap.empty.set entry true := by
  rw [collect_file env (fuel + 1) entry inputDir { allFiles := FileMap.empty, log := log }
    options fi tokens rfl hs hd ho]
  exact loop_all_visited env fuel inputDir options (Dir entry) entry tokens _
    (FileMap.get_set_self _ _ _) honly

/-- Witness for C5 as amended: the file `a.xsd` includes itself, entered as `a.xsd`. -/
theorem self_reference_singleton_witness :
    ∃ t, CollectReferencedFiles selfDisk 2 "a.xsd" "" State.initial () = some (none, t) ∧
      t.allFiles = FileMap.empty.set "a.xsd" true :=
  self_reference_singleton selfDisk 0 "a.xsd" "" [] () { IsDir := false }
    [directive "include" "a.xsd"] rfl rfl rfl
    (by
      intro tok htok ref href
      rw [List.mem_singleton] at htok
      subst htok
      have e : localRef selfDisk (Dir "a.xsd") (directive "include" "a.xsd") =
          some "a.xsd" := by decide
      rw [e] at href
      cases href
      rfl)

/-- Counterexample to C5 as stated: the file `a.xsd` includes itself and has no other
reference; entered under the path string `./a.xsd`, which names that file, the call
returns success with two keys in the visited map, `./a.xsd` and `a.xsd`. -/
theorem self_reference_unclean_entry :
    selfDisk.Open "./a.xsd" = Except.ok [directive "include" "a.xsd"] ∧
    selfDisk.Open "./a.xsd" = selfDisk.Open "a.xsd" ∧
    Option.map (fun out => (out.1, out.2.allFiles "./a.xsd", out.2.allFiles "a.xsd"))
      (CollectReferencedFiles selfDisk 3 "./a.xsd" "" State.initial ()) =
      some (none, some true, some true) := by
  refine ⟨rfl, rfl, ?_⟩
  decide

/-- C6, as amended: an import or include whose resolved path is a directory makes the
loop call `CollectReferencedFiles` on that path; the call marks the directory as visited
(unless it already is), stats it and returns success without opening it, and the loop
goes on with the next token. -/
theorem directory_reference_marked {Options : Type} (env : Env) (fuel : Nat)
    (inputDir : String) (options : Options) (fileDir : String) (element : StartElement)
    (rest : List Token) (s : State) (fi : FileInfo)
    (hdir : IsDirective element) (hne : getSchemaLocation element ≠ "")
    (hurl : env.isValidURL (getSchemaLocation element) = false)
    (hs : env.Stat (Join [fileDir, getSchemaLocation element]) = Except.ok fi)
    (hd : fi.IsDir = true) :
    CollectReferencedFiles.loop env
        (fun refFile u => CollectReferencedFiles env (fuel + 1) refFile inputDir u options)
        fileDir (Token.StartElement element :: rest) s =
      CollectReferencedFiles.loop env
        (fun refFile u => CollectReferencedFiles env (fuel + 1) refFile inputDir u options)
        fileDir rest
        (if s.allFiles.get (Join [fileDir, getSchemaLocation element]) = true then
          (s.logged (Event.stat (Join [fileDir, getSchemaLocation element]))).logged
            (Event.call (Join [fileDir, getSchemaLocation element]))
        else
          ((((s.logged (Event.stat (Join [fileDir, getSchemaLocation element]))).logged
            (Event.call (Join [fileDir, getSchemaLocation element]))).mark
              (Join [fileDir, getSchemaLocation element])).logged
                (Event.stat (Join [fileDir, getSchemaLocation element])))) := by
  have hr := localRef_start env fileDir element hdir hne hurl
  cases hv : s.allFiles.get (Join [fileDir, getSchemaLocation element]) with
  | true =>
    rw [loop_follow_ok _ _ _ _ _ _ _ fi _ hr hs
      (collect_visited env fuel _ inputDir
        ((s.logged (Event.stat (Join [fileDir, getSchemaLocation element]))).logged
          (Event.call (Join [fileDir, getSchemaLocation element]))) options hv)]
    simp
  | false =>
    rw [loop_follow_ok _ _ _ _ _ _ _ fi _ hr hs
      (collect_dir env fuel _ inputDir
        ((s.logged (Event.stat (Join [fileDir, getSchemaLocation element]))).logged
          (Event.call (Join [fileDir, getSchemaLocation element]))) options fi hv hs hd)]
    simp

/-- Witness for C6 as amended: the import of the directory `sub`. -/
theorem directory_reference_marked_witness :
    CollectReferencedFiles.loop dirDisk
        (fun refFile u => CollectReferencedFiles dirDisk 1 refFile "" u ())
        "." [directive "import" "sub"] State.initial =
      some (none, { allFiles := FileMap.empty.set "sub" true,
                    log := [Event.stat "sub", Event.call "sub", Event.mark "sub",
                            Event.stat "sub"] }) :=
  directory_reference_marked dirDisk 0 "" () "." (startTag "import" "sub") []
    State.initial { IsDir := true } (by decide) (by decide) (by decide) rfl rfl

/-- Counterexample to C6 as stated: `a.xsd` imports the directory `sub`; the log shows
the recursive call on `sub`, and `sub` has become a key of the visited map. -/
theorem directory_reference_is_visited :
    dirDisk.Stat "sub" = Except.ok { IsDir := true } ∧
    Option.map (fun out => (out.1, out.2.allFiles "sub", out.2.log))
      (CollectReferencedFiles dirDisk 2 "a.xsd" "" State.initial ()) =
      some (none, some true,
        [Event.mark "a.xsd", Event.stat "a.xsd", Event.osOpen "a.xsd", Event.stat "sub",
          Event.call "sub", Event.mark "sub", Event.stat "sub"]) := by
  refine ⟨rfl, ?_⟩
  decide


/-- C7: an import or include whose non-empty, non-URL schema location resolves to a path
that does not exist is passed over: whatever the recursive call would do, the loop goes
on with the next token, the only step taken is the `os.Stat` of the resolved path, and
the visited map is the one from before the directive. -/
theorem dangling_reference_skipped (env : Env) (recurse : String → State → Outcome)
    (fileDir : String) (element : StartElement) (rest : List Token) (s : State)
    (err : Error)
    (hdir : IsDirective element) (hne : getSchemaLocation element ≠ "")
    (hurl : env.isValidURL (getSchemaLocation element) = false)
    (hs : env.Stat (Join [fileDir, getSchemaLocation element]) = Except.error err) :
    CollectReferencedFiles.loop env recurse fileDir (Token.StartElement element :: rest) s =
      CollectReferencedFiles.loop env recurse fileDir rest
        { allFiles := s.allFiles,
          log := s.log ++ [Event.stat (Join [fileDir, getSchemaLocation element])] } :=
  loop_dangling env recurse fileDir _ rest s _ err
    (localRef_start env fileDir element hdir hne hurl) hs

/-- Witness for C7: the import of `missing.xsd`, with a recursive call that would fail. -/
theorem dangling_reference_skipped_witness :
    CollectReferencedFiles.loop danglingDisk (fun _ u => some (some "never called", u))
        "." [directive "import" "missing.xsd"] State.initial =
      some (none, { allFiles := FileMap.empty, log := [Event.stat "missing.xsd"] }) :=
  dangling_reference_skipped danglingDisk (fun _ u => some (some "never called", u)) "."
    (startTag "import" "missing.xsd") [] State.initial
    "stat missing.xsd: no such file or directory" (by decide) (by decide) (by decide) rfl

/-- C8: a start tag, in particular an import or include, whose trimmed schema location
is empty or is classified as a URL changes nothing: whatever `os.Stat` and the recursive
call would do, the loop goes on with the next token from the same state (same visited
map, no step logged). -/
theorem empty_or_remote_skipped (env : Env) (recurse : String → State → Outcome)
    (fileDir : String) (element : StartElement) (rest : List Token) (s : State)
    (hloc : getSchemaLocation element = "" ∨
      env.isValidURL (getSchemaLocation element) = true) :
    CollectReferencedFiles.loop env recurse fileDir (Token.StartElement element :: rest) s =
      CollectReferencedFiles.loop env recurse fileDir rest s := by
  apply loop_skip
  simp only [localRef]
  rw [if_neg]
  rintro ⟨_, h1, h2⟩
  rcases hloc with h | h
  · exact h1 h
  · rw [h] at h2; cases h2

/-- Witness for C8: the include of `http://example.com/s.xsd`. -/
theorem empty_or_remote_skipped_witness :
    CollectReferencedFiles.loop danglingDisk (fun _ u => some (some "never called", u))
        "." [directive "include" "http://example.com/s.xsd"] State.initial =
      some (none, State.initial) :=
  empty_or_remote_skipped danglingDisk (fun _ u => some (some "never called", u)) "."
    (startTag "include" "http://example.com/s.xsd") [] State.initial (Or.inr (by decide))

/-- C9: for an entry path that is not visited and for which `os.Stat` fails, the call
returns the error of `os.Stat`, and the visited map afterwards is the initial map with
that path set to `true`. -/
theorem missing_entry_returns_stat_error {Options : Type} (env : Env) (fuel : Nat)
    (filePath inputDir : String) (s : State) (options : Options) (err : Error)
    (hv : s.allFiles.get filePath = false)
    (hs : env.Stat filePath = Except.error err) :
    ∃ t, CollectReferencedFiles env (fuel + 1) filePath inputDir s options =
        some (some err, t) ∧
      t.allFiles = s.allFiles.set filePath true ∧
      t.log = s.log ++ [Event.mark filePath, Event.stat filePath] := by
  refine ⟨_, collect_stat_err env fuel filePath inputDir s options err hv hs, rfl, ?_⟩
  simp [State.logged, State.mark]

/-- Witness for C9: the entry path `a.xsd` on a file system without files. -/
theorem missing_entry_returns_stat_error_witness :
    ∃ t, CollectReferencedFiles emptyDisk 1 "a.xsd" "" State.initial () =
        some (some "stat a.xsd: no such file or directory", t) ∧
      t.allFiles = FileMap.empty.set "a.xsd" true ∧
      t.log = [] ++ [Event.mark "a.xsd", Event.stat "a.xsd"] :=
  missing_entry_returns_stat_error emptyDisk 0 "a.xsd" "" State.initial ()
    "stat a.xsd: no such file or directory" rfl rfl

theorem loop_append (env : Env) (recurse : String → State → Outcome) (fileDir : String)
    (post : List Token) :
    ∀ (pre : List Token) (s s1 : State),
      CollectReferencedFiles.loop env recurse fileDir pre s = some (none, s1) →
      CollectReferencedFiles.loop env recurse fileDir (pre ++ post) s =
        CollectReferencedFiles.loop env recurse fileDir post s1 := by
  intro pre
  induction pre with
  | nil => intro s s1 h; rw [loop_nil] at h; cases h; rfl
  | cons token rest ih =>
    intro s s1 h
    rw [List.cons_append]
    cases hr : localRef env fileDir token with
    | none =>
      rw [loop_skip _ _ _ _ _ _ hr] at h ⊢
      exact ih s s1 h
    | some ref =>
      cases hs : env.Stat ref with
      | error e =>
        rw [loop_dangling _ _ _ _ _ _ _ _ hr hs] at h ⊢
        exact ih _ s1 h
      | ok fi =>
        cases hc : recurse ref ((s.logged (Event.stat ref)).logged (Event.call ref)) with
        | none => rw [loop_follow_none _ _ _ _ _ _ _ _ hr hs hc] at h; cases h
        | some res =>
          obtain ⟨r, s2⟩ := res
          cases r with
          | some err =>
            rw [loop_follow_err _ _ _ _ _ _ _ _ _ _ hr hs hc] at h
            cases h
          | none =>
            rw [loop_follow_ok _ _ _ _ _ _ _ _ _ hr hs hc] at h ⊢
            exact ih _ s1 h

/-- C10: when the recursive call made for a directive returns an error, the calling
invocation returns that same error with the state the failed call left: the tokens after
the directive play no part, so nothing is added to the visited map after the failure.
The conclusion has the shape of the last hypothesis, so the error travels up through
every ancestor in the same way. -/
theorem recursive_error_propagates {Options : Type} (env : Env) (fuel : Nat)
    (filePath inputDir : String) (s : State) (options : Options) (fi gi : FileInfo)
    (pre rest : List Token) (element : StartElement) (s1 s2 : State) (err : Error)
    (hv : s.allFiles.get filePath = false)
    (hs : env.Stat filePath = Except.ok fi) (hd : fi.IsDir = false)
    (ho : env.Open filePath = Except.ok (pre ++ Token.StartElement element :: rest))
    (hpre : CollectReferencedFiles.loop env
      (fun refFile u => CollectReferencedFiles env fuel refFile inputDir u options)
      (Dir filePath) pre
      (((s.mark filePath).logged (Event.stat filePath)).logged (Event.osOpen filePath)) =
      some (none, s1))
    (hdir : IsDirective element) (hne : getSchemaLocation element ≠ "")
    (hurl : env.isValidURL (getSchemaLocation element) = false)
    (hex : env.Stat (Join [Dir filePath, getSchemaLocation element]) = Except.ok gi)
    (hrec : CollectReferencedFiles env fuel (Join [Dir filePath, getSchemaLocation element])
      inputDir
      ((s1.logged (Event.stat (Join [Dir filePath, getSchemaLocation element]))).logged
        (Event.call (Join [Dir filePath, getSchemaLocation element])))
      options = some (some err, s2)) :
    CollectReferencedFiles env (fuel + 1) filePath inputDir s options =
      some (some err, s2) := by
  rw [collect_file env fuel filePath inputDir s options fi _ hv hs hd ho,
    loop_append env _ _ _ pre _ s1 hpre]
  exact loop_follow_err env _ _ _ rest s1 _ gi err s2
    (localRef_start env _ element hdir hne hurl) hex hrec

/-- Witness for C10: `a.xsd` includes `b.xsd`, which cannot be opened, and then `c.xsd`;
the error of `os.Open` comes back and `c.xsd` is not visited. -/
theorem recursive_error_propagates_witness :
    ∃ t, CollectReferencedFiles lockedDisk 2 "a.xsd" "" State.initial () =
        some (some "open b.xsd: permission denied", t) ∧
      [t.allFiles "a.xsd", t.allFiles "b.xsd", t.allFiles "c.xsd"] =
        [some true, some true, none] :=
  ⟨_, recursive_error_propagates lockedDisk 1 "a.xsd" "" State.initial ()
      { IsDir := false } { IsDir := false } [] [directive "include" "c.xsd"]
      (startTag "include" "b.xsd") _ _ "open b.xsd: permission denied"
      rfl rfl rfl rfl rfl (by decide) (by decide) (by decide) rfl rfl,
    by decide⟩

/-! ## The claims on tokenization, the location extractor and the arguments -/

theorem tokensRead_fail (pre : List Token) (err : Error) (after : List Read) :
    tokensRead (pre.map Read.token ++ Read.fail err :: after) = pre := by
  induction pre with
  | nil => rfl
  | cons t rest ih => simp [tokensRead, ih]

theorem loop_none_from_rec (env : Env) (recurse : String → State → Outcome)
    (fileDir : String) :
    ∀ (tokens : List Token) (s : State),
      CollectReferencedFiles.loop env recurse fileDir tokens s = none →
      ∃ tok ∈ tokens, ∃ ref u, localRef env fileDir tok = some ref ∧ recurse ref u = none := by
  intro tokens
  induction tokens with
  | nil => intro s h; rw [loop_nil] at h; cases h
  | cons token rest ih =>
    intro s h
    have lift : (∃ tok ∈ rest, ∃ ref u, localRef env fileDir tok = some ref ∧
        recurse ref u = none) →
        ∃ tok ∈ token :: rest, ∃ ref u, localRef env fileDir tok = some ref ∧
          recurse ref u = none := by
      rintro ⟨tok, htok, x⟩
      exact ⟨tok, List.mem_cons_of_mem _ htok, x⟩
    cases hr : localRef env fileDir token with
    | none =>
      rw [loop_skip _ _ _ _ _ _ hr] at h
      exact lift (ih s h)
    | some ref =>
      cases hs : env.Stat ref with
      | error e =>
        rw [loop_dangling _ _ _ _ _ _ _ _ hr hs] at h
        exact lift (ih _ h)
      | ok fi =>
        cases hc : recurse ref ((s.logged (Event.stat ref)).logged (Event.call ref)) with
        | none => exact ⟨token, List.mem_cons_self _ _, ref, _, hr, hc⟩
        | some res =>
          obtain ⟨r, s1⟩ := res
          cases r with
          | some err =>
            rw [loop_follow_err _ _ _ _ _ _ _ _ _ _ hr hs hc] at h
            cases h
          | none =>
            rw [loop_follow_ok _ _ _ _ _ _ _ _ _ hr hs hc] at h
            exact lift (ih _ h)

theorem loop_error_from_rec (env : Env) (recurse : String → State → Outcome)
    (fileDir : String) (e : Error) (t : State) :
    ∀ (tokens : List Token) (s : State),
      CollectReferencedFiles.loop env recurse fileDir tokens s = some (some e, t) →
      ∃ tok ∈ tokens, ∃ ref u, localRef env fileDir tok = some ref ∧
        recurse ref u = some (some e, t) := by
  intro tokens
  induction tokens with
  | nil => intro s h; rw [loop_nil] at h; cases h
  | cons token rest ih =>
    intro s h
    have lift : (∃ tok ∈ rest, ∃ ref u, localRef env fileDir tok = some ref ∧
        recurse ref u = some (some e, t)) →
        ∃ tok ∈ token :: rest, ∃ ref u, localRef env fileDir tok = some ref ∧
          recurse ref u = some (some e, t) := by
      rintro ⟨tok, htok, x⟩
      exact ⟨tok, List.mem_cons_of_mem _ htok, x⟩
    cases hr : localRef env fileDir token with
    | none =>
      rw [loop_skip _ _ _ _ _ _ hr] at h
      exact lift (ih s h)
    | some ref =>
      cases hs : env.Stat ref with
      | error e2 =>
        rw [loop_dangling _ _ _ _ _ _ _ _ hr hs] at h
        exact lift (ih _ h)
      | ok fi =>
        cases hc : recurse ref ((s.logged (Event.stat ref)).logged (Event.call ref)) with
        | none => rw [loop_follow_none _ _ _ _ _ _ _ _ hr hs hc] at h; cases h
        | some res =>
          obtain ⟨r, s1⟩ := res
          cases r with
          | some err =>
            rw [loop_follow_err _ _ _ _ _ _ _ _ _ _ hr hs hc] at h
            cases h
            exact ⟨token, List.mem_cons_self _ _, ref, _, hr, hc⟩
          | none =>
            rw [loop_follow_ok _ _ _ _ _ _ _ _ _ hr hs hc] at h
            exact lift (ih _ h)

/-- C11: a tokenization failure is never an error. For a regular file whose decoder
hands out the tokens `pre` and then fails with `err`: (1) the call is the loop over
`pre`, whatever the error is and whatever follows it in the input; (2) the call runs out
of fuel only inside a recursive call, and (3) it returns an error only if a recursive
call made for a directive of `pre` returned that error, so it returns success when every
such recursion does; (4) on success every existing reference of `pre` is visited; (5) an
ancestor that made the call goes on with its next token. -/
theorem tokenization_failure_ends_file {Options : Type} (env : Env) (fuel : Nat)
    (filePath inputDir : String) (s : State) (options : Options) (fi : FileInfo)
    (pre : List Token) (err : Error) (after : List Read)
    (hv : s.allFiles.get filePath = false)
    (hs : env.Stat filePath = Except.ok fi) (hd : fi.IsDir = false)
    (ho : env.Open filePath =
      Except.ok (tokensRead (pre.map Read.token ++ Read.fail err :: after))) :
    CollectReferencedFiles env (fuel + 1) filePath inputDir s options =
      CollectReferencedFiles.loop env
        (fun refFile u => CollectReferencedFiles env fuel refFile inputDir u options)
        (Dir filePath) pre
        (((s.mark filePath).logged (Event.stat filePath)).logged (Event.osOpen filePath)) ∧
    (CollectReferencedFiles env (fuel + 1) filePath inputDir s options = none →
      ∃ tok ∈ pre, ∃ ref u, localRef env (Dir filePath) tok = some ref ∧
        CollectReferencedFiles env fuel ref inputDir u options = none) ∧
    (∀ e t, CollectReferencedFiles env (fuel + 1) filePath inputDir s options =
        some (some e, t) →
      ∃ tok ∈ pre, ∃ ref u, localRef env (Dir filePath) tok = some ref ∧
        CollectReferencedFiles env fuel ref inputDir u options = some (some e, t)) ∧
    (∀ t, CollectReferencedFiles env (fuel + 1) filePath inputDir s options =
        some (none, t) →
      ∀ tok ∈ pre, ∀ ref, localRef env (Dir filePath) tok = some ref → Exists env ref →
        t.allFiles.get ref = true) ∧
    (∀ (parentDir : String) (token : Token) (rest : List Token) (u t : State),
      localRef env parentDir token = some filePath →
      CollectReferencedFiles env (fuel + 1) filePath inputDir
        ((u.logged (Event.stat filePath)).logged (Event.call filePath)) options =
        some (none, t) →
      CollectReferencedFiles.loop env
          (fun refFile w => CollectReferencedFiles env (fuel + 1) refFile inputDir w options)
          parentDir (token :: rest) u =
        CollectReferencedFiles.loop env
          (fun refFile w => CollectReferencedFiles env (fuel + 1) refFile inputDir w options)
          parentDir rest t) := by
  rw [tokensRead_fail] at ho
  have h1 := collect_file env fuel filePath inputDir s options fi pre hv hs hd ho
  refine ⟨h1, ?_, ?_, ?_, ?_⟩
  · intro h
    rw [h1] at h
    exact loop_none_from_rec env _ _ pre _ h
  · intro e t h
    rw [h1] at h
    exact loop_error_from_rec env _ _ e t pre _ h
  · intro t h
    rw [h1] at h
    exact (loop_explored env _ (Dir filePath)
      (fun ref u out hh => collect_grows env inputDir options fuel ref u out hh)
      (fun ref u v hh => collect_explored env inputDir options fuel ref u v hh)
      pre _ t h).2.2
  · intro parentDir token rest u t hr hc
    exact loop_follow_ok env _ parentDir token rest u filePath fi t hr hs hc

/-- Witness for C11: `a.xsd` includes `b.xsd` and is malformed after that; the call
succeeds, `b.xsd` is visited and the include of `c.xsd` behind the failure is not. -/
theorem tokenization_failure_ends_file_witness :
    ∃ t, CollectReferencedFiles brokenDisk 2 "a.xsd" "" State.initial () = some (none, t) ∧
      [t.allFiles "a.xsd", t.allFiles "b.xsd", t.allFiles "c.xsd"] =
        [some true, some true, none] :=
  ⟨_, (tokenization_failure_ends_file brokenDisk 1 "a.xsd" "" State.initial ()
      { IsDir := false } [directive "include" "b.xsd"]
      "XML syntax error on line 3: unexpected EOF"
      [Read.token (directive "include" "c.xsd")] rfl rfl rfl rfl).1.trans rfl,
    by decide⟩

theorem dropWhile_head_not (p : Char → Bool) :
    ∀ (l : List Char) (c : Char), (l.dropWhile p).head? = some c → p c = false := by
  intro l
  induction l with
  | nil => intro c h; simp at h
  | cons a rest ih =>
    intro c h
    cases hp : p a with
    | true => rw [List.dropWhile_cons_of_pos hp] at h; exact ih c h
    | false =>
      rw [List.dropWhile_cons_of_neg (by simp [hp])] at h
      simp at h
      rw [← h]; exact hp

theorem trim_isTrimOf (v : List Char) :
    IsTrimOf ((v.dropWhile isSpace).reverse.dropWhile isSpace).reverse v := by
  have hm : v.dropWhile isSpace =
      ((v.dropWhile isSpace).reverse.dropWhile isSpace).reverse ++
        ((v.dropWhile isSpace).reverse.takeWhile isSpace).reverse := by
    rw [← List.reverse_append, List.takeWhile_append_dropWhile, List.reverse_reverse]
  refine ⟨v.takeWhile isSpace, ((v.dropWhile isSpace).reverse.takeWhile isSpace).reverse,
    ?_, ?_, ?_, ?_, ?_⟩
  · rw [List.append_assoc, ← hm, List.takeWhile_append_dropWhile]
  · intro c hc
    exact List.mem_takeWhile_imp hc
  · intro c hc
    rw [List.mem_reverse] at hc
    exact List.mem_takeWhile_imp hc
  · intro c hc
    apply dropWhile_head_not isSpace v c
    rw [hm, List.head?_append_of_ne_nil]
    · exact hc
    · intro hn; rw [hn] at hc; cases hc
  · intro c hc
    rw [List.getLast?_reverse] at hc
    exact dropWhile_head_not isSpace _ c hc

theorem trim_eq_nil_iff (v : List Char) :
    ((v.dropWhile isSpace).reverse.dropWhile isSpace).reverse = [] ↔
      ∀ c ∈ v, isSpace c = true := by
  constructor
  · intro h
    obtain ⟨pre, suf, hv, hpre, hsuf, _, _⟩ := trim_isTrimOf v
    rw [h] at hv
    intro c hc
    rw [hv] at hc
    simp only [List.append_nil, List.mem_append] at hc
    rcases hc with h1 | h1
    · exact hpre c h1
    · exact hsuf c h1
  · intro h
    have : v.dropWhile isSpace = [] := by
      rw [List.dropWhile_eq_nil_iff]
      exact h
    rw [this]
    rfl

theorem getSchemaLocation_loop_find (attrs : List Attr) :
    getSchemaLocation.loop attrs =
      match attrs.find? (fun attr => decide (attr.Name.Local = "schemaLocation")) with
      | some attr => TrimSpace attr.Value
      | none => "" := by
  induction attrs with
  | nil => rfl
  | cons a rest ih =>
    by_cases h : a.Name.Local = "schemaLocation"
    · simp [getSchemaLocation.loop, List.find?, h]
    · simp [getSchemaLocation.loop, List.find?, h, ih]

theorem getSchemaLocation_loop_local (attrs attrs2 : List Attr)
    (h : attrs2.map (fun a => (a.Name.Local, a.Value)) =
      attrs.map (fun a => (a.Name.Local, a.Value))) :
    getSchemaLocation.loop attrs2 = getSchemaLocation.loop attrs := by
  induction attrs generalizing attrs2 with
  | nil =>
    cases attrs2 with
    | nil => rfl
    | cons b rest2 => simp at h
  | cons a rest ih =>
    cases attrs2 with
    | nil => simp at h
    | cons b rest2 =>
      simp only [List.map_cons, List.cons.injEq, Prod.mk.injEq] at h
      obtain ⟨⟨h1, h2⟩, h3⟩ := h
      simp only [getSchemaLocation.loop, h1, h2, ih rest2 h3]

/-- C12: `getSchemaLocation` is the Location Extractor of the spec: it returns the
trimmed value of the first attribute, in attribute order, whose local name is
`schemaLocation`, whatever the name spaces of the attributes are; the result is that
value without its leading and trailing white space; and it is the empty string exactly
when there is no such attribute or the value of the first one is empty or all white
space. The function is total: it returns a string for every start element. -/
theorem getSchemaLocation_first_trimmed (element : StartElement) :
    getSchemaLocation element = extractLocation element ∧
    (∀ attr, element.Attr.find? (fun a => decide (a.Name.Local = "schemaLocation")) =
        some attr →
      getSchemaLocation element = TrimSpace attr.Value ∧
      IsTrimOf (getSchemaLocation element).data attr.Value.data) ∧
    (∀ element2 : StartElement,
      element2.Attr.map (fun a => (a.Name.Local, a.Value)) =
        element.Attr.map (fun a => (a.Name.Local, a.Value)) →
      getSchemaLocation element2 = getSchemaLocation element) ∧
    (getSchemaLocation element = "" ↔
      element.Attr.find? (fun a => decide (a.Name.Local = "schemaLocation")) = none ∨
      ∃ attr, element.Attr.find? (fun a => decide (a.Name.Local = "schemaLocation")) =
          some attr ∧ ∀ c ∈ attr.Value.data, isSpace c = true) := by
  have hfind := getSchemaLocation_loop_find element.Attr
  refine ⟨?_, ?_, ?_, ?_⟩
  · exact hfind
  · intro attr h
    have e : getSchemaLocation element = TrimSpace attr.Value := by
      unfold getSchemaLocation
      rw [hfind, h]
    refine ⟨e, ?_⟩
    rw [e]
    exact trim_isTrimOf attr.Value.data
  · intro element2 h
    exact getSchemaLocation_loop_local element.Attr element2.Attr h
  · unfold getSchemaLocation
    rw [hfind]
    cases hf : element.Attr.find? (fun a => decide (a.Name.Local = "schemaLocation")) with
    | none => simp
    | some attr =>
      have key : TrimSpace attr.Value = "" ↔ ∀ c ∈ attr.Value.data, isSpace c = true := by
        rw [← trim_eq_nil_iff]
        unfold TrimSpace
        constructor
        · intro h
          have := congrArg String.data h
          exact this
        · intro h
          rw [h]
      simp [key]

/-- Witness for C12: the first `schemaLocation` attribute wins, in any name space, and
its value is trimmed. -/
theorem getSchemaLocation_first_trimmed_witness :
    getSchemaLocation
        { Name := { Space := "", Local := "import" },
          Attr := [{ Name := { Space := "", Local := "namespace" }, Value := "urn:x" },
                   { Name := { Space := "urn:y", Local := "schemaLocation" },
                     Value := " \t b.xsd\n" },
                   { Name := { Space := "", Local := "schemaLocation" },
                     Value := "c.xsd" }] } = "b.xsd" ∧
    IsTrimOf "b.xsd".data " \t b.xsd\n".data :=
  let element : StartElement :=
    { Name := { Space := "", Local := "import" },
      Attr := [{ Name := { Space := "", Local := "namespace" }, Value := "urn:x" },
               { Name := { Space := "urn:y", Local := "schemaLocation" },
                 Value := " \t b.xsd\n" },
               { Name := { Space := "", Local := "schemaLocation" }, Value := "c.xsd" }] }
  ((getSchemaLocation_first_trimmed element).2.1
    { Name := { Space := "urn:y", Local := "schemaLocation" }, Value := " \t b.xsd\n" }
    (by decide))

theorem collect_args_irrelevant {Options Options2 : Type} (env : Env) :
    ∀ (fuel : Nat) (filePath inputDir inputDir2 : String) (s : State)
      (options : Options) (options2 : Options2),
      CollectReferencedFiles env fuel filePath inputDir s options =
        CollectReferencedFiles env fuel filePath inputDir2 s options2 := by
  intro fuel
  induction fuel with
  | zero => intro filePath inputDir inputDir2 s options options2; rfl
  | succ fuel ih =>
    intro filePath inputDir inputDir2 s options options2
    have hrec : (fun refFile u =>
          CollectReferencedFiles env fuel refFile inputDir u options) =
        (fun refFile u => CollectReferencedFiles env fuel refFile inputDir2 u options2) := by
      funext refFile u
      exact ih refFile inputDir inputDir2 u options options2
    cases hv : s.allFiles.get filePath with
    | true => rw [collect_visited _ _ _ _ _ _ hv, collect_visited _ _ _ _ _ _ hv]
    | false =>
      cases hs : env.Stat filePath with
      | error e =>
        rw [collect_stat_err _ _ _ _ _ _ _ hv hs, collect_stat_err _ _ _ _ _ _ _ hv hs]
      | ok fi =>
        cases hd : fi.IsDir with
        | true => rw [collect_dir _ _ _ _ _ _ _ hv hs hd, collect_dir _ _ _ _ _ _ _ hv hs hd]
        | false =>
          cases ho : env.Open filePath with
          | error e =>
            rw [collect_open_err _ _ _ _ _ _ _ _ hv hs hd ho,
              collect_open_err _ _ _ _ _ _ _ _ hv hs hd ho]
          | ok tokens =>
            rw [collect_file _ _ _ _ _ _ _ _ hv hs hd ho,
              collect_file _ _ _ _ _ _ _ _ hv hs hd ho, hrec]

theorem dropWhile_append_all (p : Char → Bool) (ys : List Char) :
    ∀ xs : List Char, (∀ c ∈ xs, p c = true) → (xs ++ ys).dropWhile p = ys.dropWhile p := by
  intro xs
  induction xs with
  | nil => intro _; rfl
  | cons a rest ih =>
    intro h
    rw [List.cons_append, List.dropWhile_cons_of_pos (h a (List.mem_cons_self _ _))]
    exact ih (fun c hc => h c (List.mem_cons_of_mem _ hc))

theorem uptoLastSep_split (d base : List Char) (hbase : '/' ∉ base)
    (hd : d = [] ∨ d.getLast? = some '/') : uptoLastSep (d ++ base) = d := by
  unfold uptoLastSep
  rw [List.reverse_append, dropWhile_append_all]
  · cases hr : d.reverse with
    | nil =>
      have : d = [] := by simpa using hr
      rw [this]
      rfl
    | cons x xs =>
      have hx : x = '/' := by
        rcases hd with h | h
        · rw [h] at hr; cases hr
        · rw [← List.head?_reverse, hr] at h
          simpa using h
      subst hx
      rw [List.dropWhile_cons_of_neg (by simp), ← hr, List.reverse_reverse]
  · intro c hc
    rw [List.mem_reverse] at hc
    have : c ≠ '/' := fun e => hbase (e ▸ hc)
    simpa using this

theorem Dir_split (path : String) (d base : List Char) (h : IsDirAndName path d base) :
    Dir path = Clean (String.mk d) := by
  obtain ⟨h1, h2, h3⟩ := h
  unfold Dir Clean
  rw [h1, uptoLastSep_split d base h2 h3]

/-- C13: `inputDir` and `options` do not influence the result, and references are
resolved against the directory of the file that holds the directive. First part: two
runs that differ only in `inputDir` and `options` (even in the type of the options)
have the same outcome, that is, the same error, the same visited map and the same log
of steps. Second part: in a regular file whose path is the directory part `d` followed
by a file name, a directive with a non-empty, non-URL location `loc` makes the call
stat the path `filepath.Join(filepath.Clean(d), loc)` and, when that path exists,
recurse on it, whatever `inputDir` is. -/
theorem inputDir_options_irrelevant {Options Options2 : Type} (env : Env) :
    (∀ (fuel : Nat) (filePath inputDir inputDir2 : String) (s : State)
      (options : Options) (options2 : Options2),
      CollectReferencedFiles env fuel filePath inputDir s options =
        CollectReferencedFiles env fuel filePath inputDir2 s options2) ∧
    (∀ (fuel : Nat) (filePath inputDir : String) (s s1 : State) (options : Options)
      (fi : FileInfo) (pre rest : List Token) (element : StartElement)
      (d base : List Char),
      s.allFiles.get filePath = false →
      env.Stat filePath = Except.ok fi → fi.IsDir = false →
      env.Open filePath = Except.ok (pre ++ Token.StartElement element :: rest) →
      IsDirAndName filePath d base →
      CollectReferencedFiles.loop env
        (fun refFile u => CollectReferencedFiles env fuel refFile inputDir u options)
        (Clean (String.mk d)) pre
        (((s.mark filePath).logged (Event.stat filePath)).logged (Event.osOpen filePath)) =
        some (none, s1) →
      IsDirective element → getSchemaLocation element ≠ "" →
      env.isValidURL (getSchemaLocation element) = false →
      CollectReferencedFiles env (fuel + 1) filePath inputDir s options =
        match env.Stat (Join [Clean (String.mk d), getSchemaLocation element]) with
        | Except.ok _ =>
          match CollectReferencedFiles env fuel
              (Join [Clean (String.mk d), getSchemaLocation element]) inputDir
              ((s1.logged
                (Event.stat (Join [Clean (String.mk d), getSchemaLocation element]))).logged
                (Event.call (Join [Clean (String.mk d), getSchemaLocation element])))
              options with
          | none => none
          | some (some err, s2) => some (some err, s2)
          | some (none, s2) =>
            CollectReferencedFiles.loop env
              (fun refFile u => CollectReferencedFiles env fuel refFile inputDir u options)
              (Clean (String.mk d)) rest s2
        | Except.error _ =>
          CollectReferencedFiles.loop env
            (fun refFile u => CollectReferencedFiles env fuel refFile inputDir u options)
            (Clean (String.mk d)) rest
            (s1.logged
              (Event.stat (Join [Clean (String.mk d), getSchemaLocation element])))) := by
  refine ⟨collect_args_irrelevant env, ?_⟩
  intro fuel filePath inputDir s s1 options fi pre rest element d base hv hs hd ho hsplit
    hpre hdir hne hurl
  rw [collect_file env fuel filePath inputDir s options fi _ hv hs hd ho,
    Dir_split filePath d base hsplit, loop_append env _ _ _ pre _ s1 hpre, loop_cons,
    localRef_start env _ element hdir hne hurl]

/-- Witness for C13: `schemas/A.xsd` includes `B.xsd` while `inputDir` is `elsewhere`;
the reference is resolved to `schemas/B.xsd`, not to `elsewhere/B.xsd`. -/
theorem inputDir_options_irrelevant_witness :
    ∃ t, CollectReferencedFiles chainDisk 3 "schemas/A.xsd" "elsewhere" State.initial () =
        some (none, t) ∧
      [t.allFiles "schemas/B.xsd", t.allFiles "elsewhere/B.xsd", t.allFiles "B.xsd"] =
        [some true, none, none] ∧
      Event.call "schemas/B.xsd" ∈ t.log :=
  ⟨_, ((@inputDir_options_irrelevant Unit Unit chainDisk).2 2 "schemas/A.xsd"
      "elsewhere" State.initial _ () { IsDir := false } [] [] (startTag "include" "B.xsd")
      "schemas/".data "A.xsd".data rfl rfl rfl rfl ⟨rfl, by decide, Or.inr rfl⟩ rfl
      (by decide) (by decide) (by decide)).trans rfl,
    by decide, by decide⟩

/-- C14, as amended: whatever a call returns (success or an error), every key of the
visited map before the call is still a key after it, and every path held as `true`
before the call is held as `true` after it. -/
theorem visited_only_grows {Options : Type} (env : Env) (fuel : Nat)
    (filePath inputDir : String) (s t : State) (options : Options) (r : Option Error)
    (h : CollectReferencedFiles env fuel filePath inputDir s options = some (r, t)) :
    (∀ q, s.allFiles.HasKey q → t.allFiles.HasKey q) ∧
    (∀ q, s.allFiles q = some true → t.allFiles q = some true) := by
  have g := collect_grows env inputDir options fuel filePath s _ h
  constructor
  · intro q hq
    rcases g.2.1 q with h1 | h1
    · intro hn; rw [h1] at hn; exact hq hn
    · intro hn; rw [h1] at hn; cases hn
  · intro q hq
    rcases g.2.1 q with h1 | h1
    · rw [h1]; exact hq
    · exact h1

/-- Witness for C14 as amended: a call that fails with the error of `os.Open`. -/
theorem visited_only_grows_witness :
    ∃ t, CollectReferencedFiles lockedDisk 2 "a.xsd" ""
        { allFiles := FileMap.empty.set "old.xsd" true, log := [] } () =
        some (some "open b.xsd: permission denied", t) ∧
      (∀ q, (FileMap.empty.set "old.xsd" true).HasKey q → t.allFiles.HasKey q) ∧
      (∀ q, (FileMap.empty.set "old.xsd" true) q = some true → t.allFiles q = some true) :=
  ⟨_, rfl, visited_only_grows lockedDisk 2 "a.xsd" ""
    { allFiles := FileMap.empty.set "old.xsd" true, log := [] } _ ()
    (some "open b.xsd: permission denied") rfl⟩

/-- Counterexample to C14 as stated: the path `x.xsd` is a key of the map before the
call, held as `false`; after a call on another path it is still held as `false`, not
as `true`. -/
theorem visited_false_key_stays_false :
    (FileMap.empty.set "x.xsd" false).HasKey "x.xsd" ∧
    Option.map (fun out => (out.1, out.2.allFiles "x.xsd", out.2.allFiles "sub"))
      (CollectReferencedFiles dirDisk 2 "a.xsd" ""
        { allFiles := FileMap.empty.set "x.xsd" false, log := [] } ()) =
      some (none, some false, some true) := by
  constructor
  · simp [FileMap.HasKey, FileMap.set]
  · decide

/-- C15, as amended: for an entry path that is a directory and is not visited, the call
returns success after marking the path and calling `os.Stat` on it, and does nothing
else (no `os.Open`, no recursive call): the visited map afterwards is the map from
before with the directory path set to `true`. -/
theorem directory_entry_marked_only {Options : Type} (env : Env) (fuel : Nat)
    (filePath inputDir : String) (s : State) (options : Options) (fi : FileInfo)
    (hv : s.allFiles.get filePath = false)
    (hs : env.Stat filePath = Except.ok fi) (hd : fi.IsDir = true) :
    CollectReferencedFiles env (fuel + 1) filePath inputDir s options =
      some (none, { allFiles := s.allFiles.set filePath true,
                    log := s.log ++ [Event.mark filePath, Event.stat filePath] }) := by
  rw [collect_dir env fuel filePath inputDir s options fi hv hs hd]
  simp [State.logged, State.mark]

/-- Witness for C15 as amended: the directory `sub` as entry path. -/
theorem directory_entry_marked_only_witness :
    CollectReferencedFiles dirDisk 1 "sub" "" State.initial () =
      some (none, { allFiles := FileMap.empty.set "sub" true,
                    log := [] ++ [Event.mark "sub", Event.stat "sub"] }) :=
  directory_entry_marked_only dirDisk 0 "sub" "" State.initial () { IsDir := true }
    rfl rfl rfl

/-- Counterexample to C15 as stated: the entry path `sub` is a directory and not in the
visited map; the call returns success, and `sub` is a key of the map afterwards. -/
theorem directory_entry_is_visited :
    dirDisk.Stat "sub" = Except.ok { IsDir := true } ∧
    State.initial.allFiles "sub" = none ∧
    Option.map (fun out => (out.1, out.2.allFiles "sub"))
      (CollectReferencedFiles dirDisk 1 "sub" "" State.initial ()) =
      some (none, some true) := by
  refine ⟨rfl, rfl, ?_⟩
  decide


theorem swapLocal_directive (name : String) :
    (swapLocal name = "import" ∨ swapLocal name = "include") ↔
      (name = "import" ∨ name = "include") := by
  unfold swapLocal
  by_cases h1 : name = "import"
  · simp [h1]
  · by_cases h2 : name = "include"
    · simp [h2]
    · simp [h1, h2]

theorem localRef_retag (env : Env) (fileDir : String) (token : Token) :
    localRef env fileDir (retag token) = localRef env fileDir token := by
  cases token with
  | StartElement element =>
    simp only [retag, localRef, IsDirective, getSchemaLocation, swapLocal_directive]
  | _ => rfl

theorem localRef_variant (env env2 : Env) (hurl : env2.isValidURL = env.isValidURL)
    (fileDir : String) (a b : Token) (hab : TagVariant a b) :
    localRef env2 fileDir b = localRef env fileDir a := by
  have h1 : localRef env2 fileDir b = localRef env fileDir b := by
    cases b with
    | StartElement element => simp only [localRef, hurl]
    | _ => rfl
  rw [h1]
  rcases hab with h | h
  · rw [h]
  · rw [h, localRef_retag]

theorem loop_variant (env env2 : Env) (hstat : env2.Stat = env.Stat)
    (hurl : env2.isValidURL = env.isValidURL) (recurse : String → State → Outcome)
    (fileDir : String) (tokens tokens2 : List Token)
    (h : List.Forall₂ TagVariant tokens tokens2) :
    ∀ s, CollectReferencedFiles.loop env2 recurse fileDir tokens2 s =
      CollectReferencedFiles.loop env recurse fileDir tokens s := by
  induction h with
  | nil => intro s; rw [loop_nil, loop_nil]
  | @cons a b l1 l2 hab _ ih =>
    intro s
    have hl := localRef_variant env env2 hurl fileDir a b hab
    cases hr : localRef env fileDir a with
    | none =>
      rw [hr] at hl
      rw [loop_skip _ _ _ _ _ _ hr, loop_skip _ _ _ _ _ _ hl]
      exact ih s
    | some ref =>
      rw [hr] at hl
      cases hs : env.Stat ref with
      | error e =>
        have hs2 : env2.Stat ref = Except.error e := by rw [hstat]; exact hs
        rw [loop_dangling _ _ _ _ _ _ _ _ hr hs, loop_dangling _ _ _ _ _ _ _ _ hl hs2]
        exact ih _
      | ok fi =>
        have hs2 : env2.Stat ref = Except.ok fi := by rw [hstat]; exact hs
        cases hc : recurse ref ((s.logged (Event.stat ref)).logged (Event.call ref)) with
        | none =>
          rw [loop_follow_none _ _ _ _ _ _ _ _ hr hs hc,
            loop_follow_none _ _ _ _ _ _ _ _ hl hs2 hc]
        | some res =>
          obtain ⟨r, s1⟩ := res
          cases r with
          | some err =>
            rw [loop_follow_err _ _ _ _ _ _ _ _ _ _ hr hs hc,
              loop_follow_err _ _ _ _ _ _ _ _ _ _ hl hs2 hc]
          | none =>
            rw [loop_follow_ok _ _ _ _ _ _ _ _ _ hr hs hc,
              loop_follow_ok _ _ _ _ _ _ _ _ _ hl hs2 hc]
            exact ih _

theorem collect_variant {Options : Type} (env env2 : Env) (h : Retagged env env2)
    (inputDir : String) (options : Options) :
    ∀ (fuel : Nat) (filePath : String) (s : State),
      CollectReferencedFiles env2 fuel filePath inputDir s options =
        CollectReferencedFiles env fuel filePath inputDir s options := by
  obtain ⟨hstat, hurl, hopen⟩ := h
  intro fuel
  induction fuel with
  | zero => intro filePath s; rfl
  | succ fuel ih =>
    intro filePath s
    have hrec : (fun refFile u =>
          CollectReferencedFiles env2 fuel refFile inputDir u options) =
        (fun refFile u => CollectReferencedFiles env fuel refFile inputDir u options) := by
      funext refFile u
      exact ih refFile u
    cases hv : s.allFiles.get filePath with
    | true => rw [collect_visited _ _ _ _ _ _ hv, collect_visited _ _ _ _ _ _ hv]
    | false =>
      cases hs : env.Stat filePath with
      | error e =>
        have hs2 : env2.Stat filePath = Except.error e := by rw [hstat]; exact hs
        rw [collect_stat_err _ _ _ _ _ _ _ hv hs, collect_stat_err _ _ _ _ _ _ _ hv hs2]
      | ok fi =>
        have hs2 : env2.Stat filePath = Except.ok fi := by rw [hstat]; exact hs
        cases hd : fi.IsDir with
        | true =>
          rw [collect_dir _ _ _ _ _ _ _ hv hs hd, collect_dir _ _ _ _ _ _ _ hv hs2 hd]
        | false =>
          rcases hopen filePath with ⟨err, ho, ho2⟩ | ⟨tokens, tokens2, ho, ho2, hvar⟩
          · rw [collect_open_err _ _ _ _ _ _ _ _ hv hs hd ho,
              collect_open_err _ _ _ _ _ _ _ _ hv hs2 hd ho2]
          · rw [collect_file _ _ _ _ _ _ _ _ hv hs hd ho,
              collect_file _ _ _ _ _ _ _ _ hv hs2 hd ho2, hrec]
            exact loop_variant env env2 hstat hurl _ _ tokens tokens2 hvar _

/-- C16: `import` and `include` are handled alike: exchanging the two local names on any
tags of any files (the start tag of an element and the end tag the decoder reports for
it) leaves the outcome of `CollectReferencedFiles` unchanged (the error, the visited map
and the log of steps), and a start tag with any other local name is passed over from the
same state, whatever `os.Stat` and the recursive call would do. -/
theorem import_include_interchangeable {Options : Type} (env env2 : Env)
    (h : Retagged env env2) (fuel : Nat) (filePath inputDir : String) (s : State)
    (options : Options) :
    CollectReferencedFiles env2 fuel filePath inputDir s options =
      CollectReferencedFiles env fuel filePath inputDir s options ∧
    ∀ (recurse : String → State → Outcome) (fileDir : String) (element : StartElement)
      (rest : List Token) (u : State),
      element.Name.Local ≠ "import" → element.Name.Local ≠ "include" →
      CollectReferencedFiles.loop env recurse fileDir (Token.StartElement element :: rest) u =
        CollectReferencedFiles.loop env recurse fileDir rest u := by
  refine ⟨collect_variant env env2 h inputDir options fuel filePath s, ?_⟩
  intro recurse fileDir element rest u h1 h2
  apply loop_skip
  simp [localRef, IsDirective, h1, h2]

theorem lookup_cons_eq (p k : String) (v : Node) (tl : List (String × Node)) :
    List.lookup p ((k, v) :: tl) = if p = k then some v else List.lookup p tl := by
  by_cases e : p = k
  · subst e; simp [List.lookup]
  · have hb : (p == k) = false := by simpa using e
    simp [List.lookup, hb, e]

theorem schemaDisk_retagged : Retagged schemaDisk schemaDiskRetagged := by
  refine ⟨?_, rfl, ?_⟩
  · funext p
    simp only [schemaDisk, schemaDiskRetagged, disk, lookup_cons_eq, List.lookup_nil]
    split_ifs <;> rfl
  · intro p
    by_cases h1 : p = "schemas/A.xsd"
    · right
      subst h1
      exact ⟨_, _, rfl, rfl,
        List.Forall₂.cons (Or.inl rfl) (List.Forall₂.cons (Or.inl rfl)
          (List.Forall₂.cons (Or.inr (by decide)) (List.Forall₂.cons (Or.inr (by decide))
            (List.Forall₂.cons (Or.inl rfl) (List.Forall₂.cons (Or.inl rfl)
              List.Forall₂.nil)))))⟩
    · by_cases h2 : p = "schemas/B.xsd"
      · right
        subst h2
        exact ⟨_, _, rfl, rfl,
          List.Forall₂.cons (Or.inl rfl) (List.Forall₂.cons (Or.inl rfl)
            (List.Forall₂.cons (Or.inr (by decide)) (List.Forall₂.cons (Or.inr (by decide))
              (List.Forall₂.cons (Or.inl rfl) (List.Forall₂.cons (Or.inl rfl)
                List.Forall₂.nil)))))⟩
      · by_cases h3 : p = "common/C.xsd"
        · right
          subst h3
          exact ⟨_, _, rfl, rfl,
            List.Forall₂.cons (Or.inl rfl) (List.Forall₂.cons (Or.inl rfl)
              (List.Forall₂.cons (Or.inl rfl) (List.Forall₂.cons (Or.inl rfl)
                List.Forall₂.nil)))⟩
        · left
          refine ⟨"open " ++ p ++ ": no such file or directory", ?_, ?_⟩ <;>
            simp only [schemaDisk, schemaDiskRetagged, disk, lookup_cons_eq,
              List.lookup_nil, h1, h2, h3, if_false]

/-- Witness for C16: three well-formed schema documents, with `include` and `import`
exchanged on the start tags and on their end tags. -/
theorem import_include_interchangeable_witness :
    Retagged schemaDisk schemaDiskRetagged ∧
    schemaDisk.Open "schemas/A.xsd" =
      Except.ok (schemaDocument (emptyElement "include" "B.xsd")) ∧
    schemaDiskRetagged.Open "schemas/A.xsd" =
      Except.ok (schemaDocument (emptyElement "import" "B.xsd")) ∧
    (CollectReferencedFiles schemaDiskRetagged 3 "schemas/A.xsd" "" State.initial () =
      CollectReferencedFiles schemaDisk 3 "schemas/A.xsd" "" State.initial () ∧
    ∀ (recurse : String → State → Outcome) (fileDir : String) (element : StartElement)
      (rest : List Token) (u : State),
      element.Name.Local ≠ "import" → element.Name.Local ≠ "include" →
      CollectReferencedFiles.loop schemaDisk recurse fileDir
          (Token.StartElement element :: rest) u =
        CollectReferencedFiles.loop schemaDisk recurse fileDir rest u) :=
  ⟨schemaDisk_retagged, rfl, rfl,
    import_include_interchangeable schemaDisk schemaDiskRetagged schemaDisk_retagged 3
      "schemas/A.xsd" "" State.initial ()⟩

end Xgen
